import Mathlib

/-!
Shallow embedding of the kanban backend (Express + Prisma) position-sequence
logic and authentication logic, together with proofs about the claims of its
specification.

Conventions of the embedding:
* Prisma tables are Lean lists of records; `id` fields are `Nat` (opaque cuids
  in the source), `position` fields are `Int` (JS numbers, used as integers).
* A controller that throws (`createError message status`) before or inside a
  transaction is modelled as returning `Except.error`; the database is then
  unchanged, mirroring the all-or-nothing transaction semantics.
* `prisma.x.findUnique { id }` is `List.find?` on the id; `updateMany` with a
  position-range filter is a `List.map` guarded by that filter; `delete` is
  `List.eraseP`; `create` appends to the table.
* The Prisma unique-id constraint (a duplicate insert fails with Prisma error
  P2002, mapped to HTTP 409 by the repository's error handler) is modelled as
  an explicit duplicate-id check on create.
-/

namespace KanbanSpec

/-- A row of the `Column` table: id, owning board, name, position
(columnController.ts / @prisma/client). -/
structure Column where
  id : Nat
  boardId : Nat
  name : String
  position : Int
  deriving Repr, DecidableEq

/-- A row of the `Task` table: id, owning column, title, and position.
Status, priority, description and due date are carried by the source records
but never interact with the position logic; they are folded into `title`-like
payload and omitted here, as no claim mentions them. -/
structure Task where
  id : Nat
  columnId : Nat
  title : String
  position : Int
  deriving Repr, DecidableEq

/-- The relational store: board ids, the `Column` table and the `Task` table. -/
structure Db where
  boards : List Nat
  columns : List Column
  tasks : List Task
  deriving Repr, DecidableEq

/-- A thrown HTTP error, `createError(message, statusCode)` from
middleware/errorHandler. -/
structure Err where
  message : String
  status : Nat
  deriving Repr, DecidableEq

/-- `prisma.column.findUnique({ where: { id } })`. -/
def findColumn (db : Db) (id : Nat) : Option Column :=
  db.columns.find? (fun c => c.id == id)

/-- `prisma.task.findUnique({ where: { id } })`. -/
def findTask (db : Db) (id : Nat) : Option Task :=
  db.tasks.find? (fun t => t.id == id)

/-- The columns of one board (`where: { boardId }`). -/
def boardColumns (db : Db) (b : Nat) : List Column :=
  db.columns.filter (fun c => c.boardId == b)

/-- The tasks of one column (`where: { columnId }`). -/
def columnTasks (db : Db) (cid : Nat) : List Task :=
  db.tasks.filter (fun t => t.columnId == cid)

/-- Positions of the columns of board `b`, in table order. -/
def columnPositions (db : Db) (b : Nat) : List Int :=
  (boardColumns db b).map (fun c => c.position)

/-- Positions of the tasks of column `cid`, in table order. -/
def taskPositions (db : Db) (cid : Nat) : List Int :=
  (columnTasks db cid).map (fun t => t.position)

/-- `prisma.column.findFirst({ where: { boardId }, orderBy: { position: 'desc' } })`,
projected to the position: the greatest position under the board, if any. -/
def maxColumnPosition (db : Db) (b : Nat) : Option Int :=
  (columnPositions db b).max?

/-- `prisma.task.findFirst({ where: { columnId }, orderBy: { position: 'desc' } })`,
projected to the position. -/
def maxTaskPosition (db : Db) (cid : Nat) : Option Int :=
  (taskPositions db cid).max?

namespace ColumnController

/-- POST /api/columns — `createColumn` of columnController.ts.  If no position
is supplied the new column gets `(maxPosition?.position ?? -1) + 1`. -/
def createColumn (db : Db) (newId : Nat) (name : String) (boardId : Nat)
    (position : Option Int) : Except Err (Db × Column) :=
  if boardId ∉ db.boards then
    .error ⟨"Board not found", 404⟩
  else if (findColumn db newId).isSome then
    .error ⟨"A record with this data already exists", 409⟩
  else
    let columnPosition : Int :=
      match position with
      | some p => p
      | none => (maxColumnPosition db boardId).getD (-1) + 1
    let column : Column := ⟨newId, boardId, name, columnPosition⟩
    .ok ({ db with columns := db.columns ++ [column] }, column)

/-- PUT /api/columns/:id — `updateColumn` of columnController.ts.  Partial
update of name/position of the one column; `...(name && { name })` skips a
missing or empty name, `...(position !== undefined && { position })` skips a
missing position.  No sibling is touched. -/
def updateColumn (db : Db) (id : Nat) (name : Option String)
    (position : Option Int) : Except Err Db :=
  match findColumn db id with
  | none => .error ⟨"Column not found", 404⟩
  | some _ =>
    .ok { db with
          columns := db.columns.map (fun c =>
            if c.id = id then
              { c with
                name := match name with
                  | some n => if n = "" then c.name else n
                  | none => c.name,
                position := position.getD c.position }
            else c) }

/-- DELETE /api/columns/:id — `deleteColumn` of columnController.ts.  Refuses
(400) when the column still has tasks; otherwise deletes the column and, in
the same transaction, decrements every sibling position greater than the
deleted column's position. -/
def deleteColumn (db : Db) (id : Nat) : Except Err Db :=
  match findColumn db id with
  | none => .error ⟨"Column not found", 404⟩
  | some existing =>
    if (columnTasks db id).length > 0 then
      .error ⟨"Cannot delete column with tasks. Please move or delete all tasks first.", 400⟩
    else
      .ok { db with
            columns := (db.columns.eraseP (fun c => c.id == id)).map (fun c =>
              if c.boardId = existing.boardId ∧ existing.position < c.position then
                { c with position := c.position - 1 }
              else c) }

/-- PATCH /api/columns/:id/reorder — `reorderColumn` of columnController.ts.
Moving right decrements siblings in `(existing.position, position]`; moving
left increments siblings in `[position, existing.position)`; then the column
itself is written with exactly `position`. -/
def reorderColumn (db : Db) (id : Nat) (position : Int) : Except Err Db :=
  match findColumn db id with
  | none => .error ⟨"Column not found", 404⟩
  | some existing =>
    let shifted : List Column :=
      if position > existing.position then
        db.columns.map (fun c =>
          if c.boardId = existing.boardId ∧ existing.position < c.position ∧
              c.position ≤ position then
            { c with position := c.position - 1 }
          else c)
      else if position < existing.position then
        db.columns.map (fun c =>
          if c.boardId = existing.boardId ∧ position ≤ c.position ∧
              c.position < existing.position then
            { c with position := c.position + 1 }
          else c)
      else
        db.columns
    .ok { db with
          columns := shifted.map (fun c =>
            if c.id = id then { c with position := position } else c) }

end ColumnController

namespace BoardController

/-- POST /api/boards/:id/columns — `createColumn` of boardController.ts.
Identical shift-free insert, written `lastColumn ? lastColumn.position + 1 : 0`
in the source. -/
def createColumn (db : Db) (newId : Nat) (boardId : Nat) (name : String)
    (position : Option Int) : Except Err (Db × Column) :=
  if boardId ∉ db.boards then
    .error ⟨"Board not found", 404⟩
  else if (findColumn db newId).isSome then
    .error ⟨"A record with this data already exists", 409⟩
  else
    let columnPosition : Int :=
      match position with
      | some p => p
      | none =>
        match maxColumnPosition db boardId with
        | some m => m + 1
        | none => 0
    let column : Column := ⟨newId, boardId, name, columnPosition⟩
    .ok ({ db with columns := db.columns ++ [column] }, column)

/-- PUT /api/boards/:id/columns/:columnId — `updateColumn` of
boardController.ts.  Writes `data: { name, position }` on the one column
(Prisma skips `undefined` fields); no sibling is touched. -/
def updateColumn (db : Db) (boardId columnId : Nat) (name : Option String)
    (position : Option Int) : Except Err Db :=
  match db.columns.find? (fun c => c.id == columnId && c.boardId == boardId) with
  | none => .error ⟨"Column not found", 404⟩
  | some _ =>
    .ok { db with
          columns := db.columns.map (fun c =>
            if c.id = columnId then
              { c with
                name := name.getD c.name,
                position := position.getD c.position }
            else c) }

/-- DELETE /api/boards/:id/columns/:columnId — `deleteColumn` of
boardController.ts.  Deletes the column with NO task check and NO sibling
position shift.  The removal of the column's tasks models the cascade delete
the schema is expected to configure (spec section 3: "Column exclusively owns
its Tasks (cascade delete expected)"). -/
def deleteColumn (db : Db) (boardId columnId : Nat) : Except Err Db :=
  match db.columns.find? (fun c => c.id == columnId && c.boardId == boardId) with
  | none => .error ⟨"Column not found", 404⟩
  | some _ =>
    .ok { db with
          columns := db.columns.eraseP (fun c => c.id == columnId),
          tasks := db.tasks.filter (fun t => ¬ t.columnId = columnId) }

end BoardController

namespace TaskController

/-- POST /api/tasks — `createTask` of taskController.  If no position is
supplied the task gets `lastTask ? lastTask.position + 1 : 0`. -/
def createTask (db : Db) (newId : Nat) (title : String) (columnId : Nat)
    (position : Option Int) : Except Err (Db × Task) :=
  match findColumn db columnId with
  | none => .error ⟨"Column not found", 404⟩
  | some _ =>
    if (findTask db newId).isSome then
      .error ⟨"A record with this data already exists", 409⟩
    else
      let taskPosition : Int :=
        match position with
        | some p => p
        | none =>
          match maxTaskPosition db columnId with
          | some m => m + 1
          | none => 0
      let task : Task := ⟨newId, columnId, title, taskPosition⟩
      .ok ({ db with tasks := db.tasks ++ [task] }, task)

/-- Fields of an update-task request body (PUT /api/tasks/:id). -/
structure UpdateTaskData where
  title : Option String
  columnId : Option Nat
  position : Option Int
  deriving Repr, DecidableEq

/-- PUT /api/tasks/:id — `updateTask` of taskController.  If `columnId` is
being changed the new column must exist; then every supplied field is written
on the one task.  No sibling in either column is touched. -/
def updateTask (db : Db) (id : Nat) (u : UpdateTaskData) : Except Err Db :=
  match findTask db id with
  | none => .error ⟨"Task not found", 404⟩
  | some existingTask =>
    let badTarget : Bool :=
      match u.columnId with
      | some cid => cid != existingTask.columnId && (findColumn db cid).isNone
      | none => false
    if badTarget then
      .error ⟨"Target column not found", 404⟩
    else
      .ok { db with
            tasks := db.tasks.map (fun t =>
              if t.id = id then
                { t with
                  title := u.title.getD t.title,
                  columnId := u.columnId.getD t.columnId,
                  position := u.position.getD t.position }
              else t) }

/-- PATCH /api/tasks/:id/move — `moveTask` of taskController.  Cross-column:
decrement source siblings above the old position, increment target siblings
at or above the requested position.  Same column: range shift as in
`reorderColumn`.  Finally the task itself is written with the target column
and exactly `position`. -/
def moveTask (db : Db) (id : Nat) (columnId : Nat) (position : Int) :
    Except Err Db :=
  match findTask db id with
  | none => .error ⟨"Task not found", 404⟩
  | some existingTask =>
    match findColumn db columnId with
    | none => .error ⟨"Target column not found", 404⟩
    | some _ =>
      let shifted : List Task :=
        if columnId ≠ existingTask.columnId then
          (db.tasks.map (fun t =>
            if t.columnId = existingTask.columnId ∧
                existingTask.position < t.position then
              { t with position := t.position - 1 }
            else t)).map (fun t =>
            if t.columnId = columnId ∧ position ≤ t.position then
              { t with position := t.position + 1 }
            else t)
        else if position > existingTask.position then
          db.tasks.map (fun t =>
            if t.columnId = columnId ∧ existingTask.position < t.position ∧
                t.position ≤ position then
              { t with position := t.position - 1 }
            else t)
        else if position < existingTask.position then
          db.tasks.map (fun t =>
            if t.columnId = columnId ∧ position ≤ t.position ∧
                t.position < existingTask.position then
              { t with position := t.position + 1 }
            else t)
        else
          db.tasks
      .ok { db with
            tasks := shifted.map (fun t =>
              if t.id = id then
                { t with columnId := columnId, position := position }
              else t) }

/-- DELETE /api/tasks/:id — `deleteTask` of taskController.  Deletes the task
and, in the same transaction, decrements every position greater than the
deleted task's position in its column. -/
def deleteTask (db : Db) (id : Nat) : Except Err Db :=
  match findTask db id with
  | none => .error ⟨"Task not found", 404⟩
  | some existingTask =>
    .ok { db with
          tasks := (db.tasks.eraseP (fun t => t.id == id)).map (fun t =>
            if t.columnId = existingTask.columnId ∧
                existingTask.position < t.position then
              { t with position := t.position - 1 }
            else t) }

end TaskController

namespace AuthController

/-- JS `\s` whitespace, as used by the email regex of authController.ts. -/
def isJsSpace (c : Char) : Bool :=
  c = ' ' || c = '\t' || c = '\n' || c = '\r' || c = '\x0b' || c = '\x0c' ||
  c = '\u00A0' || c = '\u1680' || ('\u2000' ≤ c && c ≤ '\u200A') ||
  c = '\u2028' || c = '\u2029' || c = '\u202F' || c = '\u205F' ||
  c = '\u3000' || c = '\uFEFF'

/-- One character of JS `toLowerCase` — Unicode default case conversion, as
`email.toLowerCase()` performs it in authController.ts — written out on the
characters that can interact with the comparison against the lowercased
hardcoded address.  The table carries every code point whose lowercase image
contains a character of `admin@kanban.com`: over the full Unicode tables
these are exactly the ASCII capitals (here all of `A`–`Z`, so the function
is also total on ASCII) and U+212A KELVIN SIGN, which lowercases to `k`.
Every other character is kept as itself; this never changes whether the
lowercased email equals the lowercased hardcoded address, because no other
code point lowercases into its alphabet and the one expanding lowercase
mapping, U+0130 → `i` followed by U+0307, introduces U+0307.  (Context
dependence — final sigma — concerns only σ/ς, also outside that
alphabet.) -/
def jsLower (c : Char) : Char :=
  if c = 'A' then 'a' else if c = 'B' then 'b' else if c = 'C' then 'c'
  else if c = 'D' then 'd' else if c = 'E' then 'e' else if c = 'F' then 'f'
  else if c = 'G' then 'g' else if c = 'H' then 'h' else if c = 'I' then 'i'
  else if c = 'J' then 'j' else if c = 'K' then 'k' else if c = 'L' then 'l'
  else if c = 'M' then 'm' else if c = 'N' then 'n' else if c = 'O' then 'o'
  else if c = 'P' then 'p' else if c = 'Q' then 'q' else if c = 'R' then 'r'
  else if c = 'S' then 's' else if c = 'T' then 't' else if c = 'U' then 'u'
  else if c = 'V' then 'v' else if c = 'W' then 'w' else if c = 'X' then 'x'
  else if c = 'Y' then 'y' else if c = 'Z' then 'z'
  else if c = '\u212A' then 'k'
  else c

/-- The email-format regex of authController.ts,
`/^[^\s@]+@[^\s@]+\.[^\s@]+$/`, read on a character list: no whitespace
anywhere, exactly one `@`, a nonempty part before the `@`, and after the `@`
a dot with at least one character on each side. -/
def emailFormatValid (email : List Char) : Bool :=
  (email.countP (fun c => c == '@') == 1) &&
  email.all (fun c => !(isJsSpace c)) &&
  !(email.takeWhile (fun c => c != '@')).isEmpty &&
  ((((email.dropWhile (fun c => c != '@')).drop 1).drop 1).dropLast.any
    (fun c => c == '.'))

/-- `HARDCODED_EMAIL` of authController.ts. -/
def hardcodedEmail : List Char := "admin@kanban.com".toList

/-- `HARDCODED_PASSWORD` of authController.ts. -/
def hardcodedPassword : List Char := "admin123".toList

/-- Outcome of POST /api/auth/login: either a thrown HTTP error, or a 200
response carrying a fresh JWT and the admin user payload. -/
inductive LoginResult where
  | failure (status : Nat)
  | success
  deriving Repr, DecidableEq

/-- POST /api/auth/login — `login` of authController.ts.  Missing (empty)
email or password is a 400; a malformed email is a 400; credentials are then
compared — email case-insensitively against `HARDCODED_EMAIL`, password
exactly against `HARDCODED_PASSWORD` — and a mismatch is a 401 (the catch
block re-raises the invalid-credential error unchanged).  On a match the
admin user is found or created and a JWT is issued; the find-or-create and
JWT signing are infallible here (a missing JWT secret or storage failure,
a 500 in the source, is outside this model). -/
def login (email password : List Char) : LoginResult :=
  if email.isEmpty || password.isEmpty then
    .failure 400
  else if !(emailFormatValid email) then
    .failure 400
  else if email.map jsLower ≠ hardcodedEmail.map jsLower ∨
      password ≠ hardcodedPassword then
    .failure 401
  else
    .success

/-- A row of the `User` table, as far as authentication uses it. -/
structure AuthUser where
  id : Nat
  email : List Char
  deriving Repr, DecidableEq

/-- A row of the `MagicLink` table: token, email, optional user reference,
expiry instant and used-at marker (instants are integer timestamps). -/
structure MagicLink where
  id : Nat
  token : String
  email : List Char
  userId : Option Nat
  expiresAt : Int
  usedAt : Option Int
  deriving Repr, DecidableEq

/-- The authentication store. -/
structure AuthDb where
  users : List AuthUser
  links : List MagicLink
  deriving Repr, DecidableEq

/-- Outcome of POST /api/auth/verify: a thrown HTTP error, or a 200 response
carrying a JWT for the given user id. -/
inductive VerifyResult where
  | err (status : Nat) (message : String)
  | authenticated (userId : Nat)
  deriving Repr, DecidableEq

/-- POST /api/auth/verify — `verifyMagicLink`.  Looks the token up; an
unknown token is a 401; an expired link is deleted and a 401 raised; an
already-used link is a 401 with no state change; otherwise the link's user is
resolved (created from the link's email when absent, with fresh id
`newUserId`), the link is marked used at instant `now`, and a JWT is issued.
The catch block re-raises the expired/used 401s unchanged. -/
def verifyMagicLink (db : AuthDb) (token : String) (now : Int)
    (newUserId : Nat) : VerifyResult × AuthDb :=
  if token = "" then
    (.err 400 "Token is required", db)
  else
    match db.links.find? (fun l => l.token == token) with
    | none => (.err 401 "Invalid or expired magic link", db)
    | some magicLink =>
      if now > magicLink.expiresAt then
        (.err 401 "Magic link has expired",
         { db with links := db.links.eraseP (fun l => l.id == magicLink.id) })
      else if magicLink.usedAt.isSome then
        (.err 401 "Magic link has already been used", db)
      else
        let resolved : Nat × List AuthUser :=
          match magicLink.userId with
          | some uid => (uid, db.users)
          | none => (newUserId, db.users ++ [⟨newUserId, magicLink.email⟩])
        (.authenticated resolved.1,
         { users := resolved.2,
           links := db.links.map (fun l =>
             if l.id = magicLink.id then { l with usedAt := some now } else l) })

end AuthController

/-! Spec-side vocabulary: the contiguity invariant and the per-record shift
descriptions the specification's sentences give, to be compared with the
controller translations above. -/

/-- The specification's contiguity property of a list of positions: as a
multiset it is exactly `{0, 1, ..., count-1}`, each value once. -/
def contiguous (ps : List Int) : Prop :=
  List.Perm ps ((List.range ps.length).map Int.ofNat)

instance (ps : List Int) : Decidable (contiguous ps) :=
  inferInstanceAs (Decidable (List.Perm ps _))

/-- Spec-side description of a same-parent (board) move, claim C3: the moved
column ends exactly at `toP`; a sibling in `(fromP, toP]` is decremented when
moving right, a sibling in `[toP, fromP)` is incremented when moving left;
every other column is untouched. -/
def specSameParentColumnShift (movedId : Nat) (b : Nat) (fromP toP : Int)
    (c : Column) : Column :=
  if c.id = movedId then { c with position := toP }
  else if c.boardId = b ∧ fromP < toP ∧ fromP < c.position ∧ c.position ≤ toP then
    { c with position := c.position - 1 }
  else if c.boardId = b ∧ toP < fromP ∧ toP ≤ c.position ∧ c.position < fromP then
    { c with position := c.position + 1 }
  else c

/-- Spec-side description of a same-column task move, claim C3. -/
def specSameParentTaskShift (movedId : Nat) (cid : Nat) (fromP toP : Int)
    (t : Task) : Task :=
  if t.id = movedId then { t with position := toP }
  else if t.columnId = cid ∧ fromP < toP ∧ fromP < t.position ∧ t.position ≤ toP then
    { t with position := t.position - 1 }
  else if t.columnId = cid ∧ toP < fromP ∧ toP ≤ t.position ∧ t.position < fromP then
    { t with position := t.position + 1 }
  else t

/-- Spec-side description of a cross-column task move, claim C4: the moved
task is re-parented to `tgt` at exactly `toP`; a source sibling above `fromP`
is decremented; a target sibling at or above `toP` is incremented; every
other task is untouched. -/
def specCrossColumnMove (movedId : Nat) (src tgt : Nat) (fromP toP : Int)
    (t : Task) : Task :=
  if t.id = movedId then { t with columnId := tgt, position := toP }
  else if t.columnId = src ∧ fromP < t.position then
    { t with position := t.position - 1 }
  else if t.columnId = tgt ∧ toP ≤ t.position then
    { t with position := t.position + 1 }
  else t

/-- Spec-side description of the removal shift, claim C5: exactly the
siblings strictly above the removed position are decremented. -/
def specRemoveShiftColumn (b : Nat) (removedPos : Int) (c : Column) : Column :=
  if c.boardId = b ∧ removedPos < c.position then
    { c with position := c.position - 1 }
  else c

/-- Spec-side description of the removal shift for tasks, claim C5. -/
def specRemoveShiftTask (cid : Nat) (removedPos : Int) (t : Task) : Task :=
  if t.columnId = cid ∧ removedPos < t.position then
    { t with position := t.position - 1 }
  else t

/-- Claim C10's notion of equality "up to ASCII case", spec-side: lowering
restricted to the basic Latin capitals only.  To be compared with `jsLower`,
the source's Unicode lowering: the two differ at U+212A KELVIN SIGN, which
is C10's counterexample. -/
def specAsciiLower (c : Char) : Char :=
  if c = 'A' then 'a' else if c = 'B' then 'b' else if c = 'C' then 'c'
  else if c = 'D' then 'd' else if c = 'E' then 'e' else if c = 'F' then 'f'
  else if c = 'G' then 'g' else if c = 'H' then 'h' else if c = 'I' then 'i'
  else if c = 'J' then 'j' else if c = 'K' then 'k' else if c = 'L' then 'l'
  else if c = 'M' then 'm' else if c = 'N' then 'n' else if c = 'O' then 'o'
  else if c = 'P' then 'p' else if c = 'Q' then 'q' else if c = 'R' then 'r'
  else if c = 'S' then 's' else if c = 'T' then 't' else if c = 'U' then 'u'
  else if c = 'V' then 'v' else if c = 'W' then 'w' else if c = 'X' then 'x'
  else if c = 'Y' then 'y' else if c = 'Z' then 'z' else c

/-! The operation language of claim C1: any sequence of column
create-without-position / reorder / delete and task create-without-position /
move / delete, applied through the controllers above. -/

/-- One API call of the kind quantified over by claim C1. -/
inductive Op where
  | createColumn (newId : Nat) (name : String) (boardId : Nat)
  | reorderColumn (id : Nat) (position : Int)
  | deleteColumn (id : Nat)
  | createTask (newId : Nat) (title : String) (columnId : Nat)
  | moveTask (id : Nat) (columnId : Nat) (position : Int)
  | deleteTask (id : Nat)
  deriving Repr, DecidableEq

/-- Apply one call; a thrown error leaves the store unchanged (the
transaction never commits). -/
def applyOp (db : Db) : Op → Db
  | .createColumn newId name boardId =>
    match ColumnController.createColumn db newId name boardId none with
    | .ok (db', _) => db'
    | .error _ => db
  | .reorderColumn id position =>
    match ColumnController.reorderColumn db id position with
    | .ok db' => db'
    | .error _ => db
  | .deleteColumn id =>
    match ColumnController.deleteColumn db id with
    | .ok db' => db'
    | .error _ => db
  | .createTask newId title columnId =>
    match TaskController.createTask db newId title columnId none with
    | .ok (db', _) => db'
    | .error _ => db
  | .moveTask id columnId position =>
    match TaskController.moveTask db id columnId position with
    | .ok db' => db'
    | .error _ => db
  | .deleteTask id =>
    match TaskController.deleteTask db id with
    | .ok db' => db'
    | .error _ => db

/-- Apply a sequence of calls in order. -/
def applyOps (db : Db) (ops : List Op) : Db :=
  ops.foldl applyOp db

/-- Number of columns of board `b`. -/
def numColumns (db : Db) (b : Nat) : Nat := (boardColumns db b).length

/-- Number of tasks of column `cid`. -/
def numTasks (db : Db) (cid : Nat) : Nat := (columnTasks db cid).length

/-- The target position of a move is inside the valid range: for a reorder or
same-column move, `[0, count-1]`; for a cross-column move, `[0, targetCount]`
(the extra slot admits insertion at the end).  Other calls are always valid. -/
def opValid (db : Db) : Op → Prop
  | .reorderColumn id position =>
    match findColumn db id with
    | some c => 0 ≤ position ∧ position < (numColumns db c.boardId : Int)
    | none => True
  | .moveTask id columnId position =>
    match findTask db id with
    | some t =>
      if columnId = t.columnId then
        0 ≤ position ∧ position < (numTasks db columnId : Int)
      else
        0 ≤ position ∧ position ≤ (numTasks db columnId : Int)
    | none => True
  | _ => True

/-- Every call of the sequence is valid in the state it runs against. -/
def opsValid : Db → List Op → Prop
  | _, [] => True
  | db, op :: rest => opValid db op ∧ opsValid (applyOp db op) rest

/-- Structural well-formedness the relational store guarantees: primary keys
are unique. -/
def StructOk (db : Db) : Prop :=
  (db.columns.map (fun c => c.id)).Nodup ∧ (db.tasks.map (fun t => t.id)).Nodup

/-- The contiguity invariant of claim C1, over every board scope and every
column scope that occurs in the store (scopes with no rows are trivially
contiguous). -/
def Inv (db : Db) : Prop :=
  (∀ b ∈ db.columns.map (fun c => c.boardId), contiguous (columnPositions db b)) ∧
  (∀ cid ∈ db.tasks.map (fun t => t.columnId), contiguous (taskPositions db cid))

instance (db : Db) : Decidable (StructOk db) := by
  unfold StructOk; infer_instance

instance (db : Db) : Decidable (Inv db) := by
  unfold Inv; infer_instance

instance decOpValid (db : Db) (op : Op) : Decidable (opValid db op) := by
  cases op with
  | reorderColumn id pos =>
    cases hfc : findColumn db id with
    | none => exact isTrue (by simp only [opValid]; rw [hfc]; trivial)
    | some c =>
      exact decidable_of_iff (0 ≤ pos ∧ pos < (numColumns db c.boardId : Int))
        (by simp only [opValid]; rw [hfc])
  | moveTask id cid pos =>
    cases hft : findTask db id with
    | none => exact isTrue (by simp only [opValid]; rw [hft]; trivial)
    | some t =>
      exact decidable_of_iff (if cid = t.columnId then
          0 ≤ pos ∧ pos < (numTasks db cid : Int) else
          0 ≤ pos ∧ pos ≤ (numTasks db cid : Int))
        (by simp only [opValid]; rw [hft])
  | createColumn newId nm b => exact isTrue trivial
  | deleteColumn id => exact isTrue trivial
  | createTask newId ttl cid => exact isTrue trivial
  | deleteTask id => exact isTrue trivial

instance decOpsValid : (db : Db) → (ops : List Op) → Decidable (opsValid db ops)
  | _, [] => isTrue trivial
  | db, op :: rest =>
    have : Decidable (opsValid (applyOp db op) rest) :=
      decOpsValid (applyOp db op) rest
    inferInstanceAs (Decidable (_ ∧ _))

/-- A sequence exercising every call kind of claim C1 over `exDbT`. -/
def exOps : List Op :=
  [Op.createColumn 3 "C" 0, Op.reorderColumn 3 0, Op.createTask 13 "t3" 1,
   Op.moveTask 13 2 1, Op.moveTask 11 1 0, Op.deleteTask 10,
   Op.deleteColumn 3]

/-! Both tables are instances of one shape — records with a primary key, a
parent scope and a position.  The counting arguments behind the contiguity
invariant are carried out once over this shape. -/

/-- The part of a `Column`/`Task` row the position engine looks at. -/
structure Item where
  key : Nat
  scope : Nat
  pos : Int
  deriving Repr, DecidableEq

/-- View of a column row as an `Item`. -/
def colItem (c : Column) : Item := ⟨c.id, c.boardId, c.position⟩

/-- View of a task row as an `Item`. -/
def taskItem (t : Task) : Item := ⟨t.id, t.columnId, t.position⟩

/-- How many rows of scope `s` sit at position `k`. -/
def itemCount (l : List Item) (s : Nat) (k : Int) : Nat :=
  l.countP (fun x => x.scope == s && x.pos == k)

/-- How many rows have scope `s`. -/
def itemTotal (l : List Item) (s : Nat) : Nat :=
  l.countP (fun x => x.scope == s)

/-- Contiguity of scope `s`, in counting form: position `k` is occupied by
exactly one row iff `0 ≤ k < total`. -/
def ContigI (l : List Item) (s : Nat) : Prop :=
  ∀ k : Int, itemCount l s k =
    if 0 ≤ k ∧ k < (itemTotal l s : Int) then 1 else 0

/-- The position map of a same-parent move: decrement `(fromP, toP]` when
moving right, increment `[toP, fromP)` when moving left. -/
def shiftSame (fromP toP q : Int) : Int :=
  if fromP < toP ∧ fromP < q ∧ q ≤ toP then q - 1
  else if toP < fromP ∧ toP ≤ q ∧ q < fromP then q + 1
  else q

/-- Item-level effect of a same-parent move. -/
def moveItem (movedKey : Nat) (s : Nat) (fromP toP : Int) (x : Item) : Item :=
  if x.key = movedKey then { x with pos := toP }
  else if x.scope = s then { x with pos := shiftSame fromP toP x.pos }
  else x

/-- Item-level effect of the removal shift (applied after the row itself has
been deleted). -/
def removeItem (s : Nat) (p : Int) (x : Item) : Item :=
  if x.scope = s ∧ p < x.pos then { x with pos := x.pos - 1 } else x

/-- Item-level effect of a cross-scope move. -/
def crossItem (movedKey : Nat) (src tgt : Nat) (fromP toP : Int) (x : Item) :
    Item :=
  if x.key = movedKey then ⟨x.key, tgt, toP⟩
  else if x.scope = src ∧ fromP < x.pos then { x with pos := x.pos - 1 }
  else if x.scope = tgt ∧ toP ≤ x.pos then { x with pos := x.pos + 1 }
  else x

/-! Concrete stores used to instantiate the theorems below. -/

/-- One board, three columns at positions 0,1,2, no tasks. -/
def exDb3 : Db :=
  ⟨[0], [⟨1, 0, "To Do", 0⟩, ⟨2, 0, "In Progress", 1⟩, ⟨3, 0, "Done", 2⟩], []⟩

/-- One board, four columns at positions 0,1,2,3, no tasks. -/
def exDb4 : Db :=
  ⟨[0],
   [⟨1, 0, "A", 0⟩, ⟨2, 0, "B", 1⟩, ⟨3, 0, "C", 2⟩, ⟨4, 0, "D", 3⟩],
   []⟩

/-- One board, two columns; tasks 10,11,12 at 0,1,2 under column 1 and tasks
20,21 at 0,1 under column 2 (the specification's cross-column example). -/
def exDbT : Db :=
  ⟨[0],
   [⟨1, 0, "A", 0⟩, ⟨2, 0, "B", 1⟩],
   [⟨10, 1, "t0", 0⟩, ⟨11, 1, "t1", 1⟩, ⟨12, 1, "t2", 2⟩,
    ⟨20, 2, "u0", 0⟩, ⟨21, 2, "u1", 1⟩]⟩

/-- An authentication store with one user, one fresh link (`tok`), one used
link (`used`) and one expired link (`old`), all against instant 100. -/
def exAuthDb : AuthController.AuthDb :=
  ⟨[⟨5, "user@example.com".toList⟩],
   [⟨1, "tok", "user@example.com".toList, some 5, 100, none⟩,
    ⟨2, "used", "user@example.com".toList, some 5, 100, some 50⟩,
    ⟨3, "old", "user@example.com".toList, some 5, 10, none⟩]⟩

/-! General list lemmas. -/

theorem find?_decomp {α : Type} {p : α → Bool} {l : List α} {a : α}
    (h : l.find? p = some a) :
    ∃ l₁ l₂, l = l₁ ++ a :: l₂ ∧ l.eraseP p = l₁ ++ l₂ ∧
      ∀ x ∈ l₁, p x = false := by
  induction l with
  | nil => simp at h
  | cons y ys ih =>
    by_cases hy : p y
    · rw [List.find?_cons_of_pos _ hy] at h
      cases h
      exact ⟨[], ys, by simp, by simp [List.eraseP_cons, hy], by simp⟩
    · rw [List.find?_cons_of_neg _ hy] at h
      obtain ⟨l₁, l₂, h1, h2, h3⟩ := ih h
      have hy' : p y = false := by simpa using hy
      refine ⟨y :: l₁, l₂, by simp [h1], ?_, ?_⟩
      · simp [List.eraseP_cons, hy', h2]
      · intro x hx
        rcases List.mem_cons.mp hx with rfl | hx
        · exact hy'
        · exact h3 x hx

theorem key_unique {α : Type} (key : α → Nat) {l : List α} {k : Nat} {a : α}
    (hnd : (l.map key).Nodup) (hf : l.find? (fun x => key x == k) = some a) :
    ∀ x ∈ l, key x = k → x = a := by
  have hka : key a = k := by simpa using List.find?_some hf
  obtain ⟨l₁, l₂, h1, -, h3⟩ := find?_decomp hf
  subst h1
  rw [List.map_append, List.map_cons] at hnd
  have hnd2 := List.nodup_append.mp hnd
  intro x hx hxk
  rcases List.mem_append.mp hx with hx1 | hx2
  · have := h3 x hx1
    rw [hxk] at this
    simp at this
  · rcases List.mem_cons.mp hx2 with rfl | hx2
    · rfl
    · exfalso
      have hm : k ∈ l₂.map key := by
        have := List.mem_map_of_mem key hx2
        rwa [hxk] at this
      exact (List.nodup_cons.mp hnd2.2.1).1 (by rwa [hka])

theorem countP_split_key {α : Type} (key : α → Nat) {l : List α} {k : Nat}
    {a : α} (hnd : (l.map key).Nodup)
    (hf : l.find? (fun x => key x == k) = some a) (q : α → Bool) :
    l.countP q = (if q a then 1 else 0) +
      l.countP (fun x => !(key x == k) && q x) := by
  have huniq := key_unique key hnd hf
  have hka : key a = k := by simpa using List.find?_some hf
  obtain ⟨l₁, l₂, h1, -, h3⟩ := find?_decomp hf
  have hl2 : ∀ x ∈ l₂, key x ≠ k := by
    intro x hx hxk
    have hxa : x = a := huniq x (by simp [h1, hx]) hxk
    subst hxa
    rw [h1, List.map_append, List.map_cons] at hnd
    exact (List.nodup_cons.mp (List.nodup_append.mp hnd).2.1).1
      (List.mem_map_of_mem key hx)
  subst h1
  have hc1 : l₁.countP (fun x => !(key x == k) && q x) = l₁.countP q :=
    List.countP_congr (fun x hx => by rw [h3 x hx]; simp)
  have hc2 : l₂.countP (fun x => !(key x == k) && q x) = l₂.countP q :=
    List.countP_congr (fun x hx => by
      have : (key x == k) = false := by simpa using hl2 x hx
      rw [this]; simp)
  rw [List.countP_append, List.countP_cons, List.countP_append,
    List.countP_cons, hc1, hc2]
  have hz : ((!(key a == k)) && q a) = false := by simp [hka]
  rw [hz]
  cases hq : q a <;> simp <;> omega

theorem find?_map_stable {α : Type} (f : α → α) (p : α → Bool)
    (hp : ∀ x, p (f x) = p x) (l : List α) :
    (l.map f).find? p = (l.find? p).map f := by
  induction l with
  | nil => simp
  | cons y ys ih =>
    simp only [List.map_cons, List.find?_cons]
    rw [hp y]
    cases hy : p y <;> simp [ih]

/-! Counting form of the contiguity property. -/

theorem count_range_int (n : Nat) (k : Int) :
    ((List.range n).map Int.ofNat).count k =
      if 0 ≤ k ∧ k < (n : Int) then 1 else 0 := by
  induction n with
  | zero => rw [if_neg (by omega)]; simp
  | succ m ih =>
    rw [List.range_succ, List.map_append, List.count_append, ih]
    simp only [List.map_cons, List.map_nil, List.count_cons, List.count_nil,
      beq_iff_eq, Int.ofNat_eq_coe]
    split_ifs <;> omega

theorem contiguous_iff_count (ps : List Int) :
    contiguous ps ↔
      ∀ k : Int, ps.count k =
        if 0 ≤ k ∧ k < (ps.length : Int) then 1 else 0 := by
  unfold contiguous
  rw [List.perm_iff_count]
  constructor
  · intro h k
    rw [h k, count_range_int]
  · intro h k
    rw [h k, count_range_int]

/-! Item-level contiguity lemmas: each table operation preserves the
counting form of the invariant, in every scope. -/

theorem countP_eraseP_focus {α : Type} {p : α → Bool} {l : List α} {a : α}
    (hf : l.find? p = some a) (q : α → Bool) :
    l.countP q = (l.eraseP p).countP q + (if q a then 1 else 0) := by
  obtain ⟨l₁, l₂, h1, h2, -⟩ := find?_decomp hf
  subst h1
  rw [h2, List.countP_append, List.countP_append, List.countP_cons]
  omega

theorem countP_map_eq {α β : Type} (f : α → β) (l : List α) (p : β → Bool) :
    (l.map f).countP p = l.countP (fun x => p (f x)) :=
  List.countP_map ..

theorem itemTotal_map_scope_preserving (f : Item → Item)
    (hf : ∀ x, (f x).scope = x.scope) (l : List Item) (u : Nat) :
    itemTotal (l.map f) u = itemTotal l u := by
  unfold itemTotal
  rw [countP_map_eq]
  exact List.countP_congr (fun x _ => by rw [hf x])

theorem contigI_bounds {l : List Item} {u : Nat} (hc : ContigI l u) {x : Item}
    (hx : x ∈ l) (hs : x.scope = u) :
    0 ≤ x.pos ∧ x.pos < (itemTotal l u : Int) := by
  have hmem : 0 < itemCount l u x.pos := by
    unfold itemCount
    rw [List.countP_pos_iff]
    exact ⟨x, hx, by simp [hs]⟩
  have h1 := hc x.pos
  by_cases hb : 0 ≤ x.pos ∧ x.pos < (itemTotal l u : Int)
  · exact hb
  · rw [h1, if_neg hb] at hmem
    omega

theorem insert_end_contig_all (l : List Item) (u₀ : Nat) (nk : Nat)
    (hc : ∀ u, ContigI l u) :
    ∀ u, ContigI (l ++ [⟨nk, u₀, (itemTotal l u₀ : Int)⟩]) u := by
  suffices h : ∀ p : Int, p = (itemTotal l u₀ : Int) →
      ∀ u, ContigI (l ++ [⟨nk, u₀, p⟩]) u from h _ rfl
  intro p hp u k
  have hcnt := hc u k
  unfold itemCount itemTotal at hcnt ⊢
  unfold itemTotal at hp
  rw [List.countP_append, List.countP_append, hcnt]
  by_cases hu : u₀ = u
  · subst hu
    have e1 : ([(⟨nk, u₀, p⟩ : Item)]).countP
        (fun x => x.scope == u₀ && x.pos == k) = if p = k then 1 else 0 := by
      simp [List.countP_cons]
    have e2 : ([(⟨nk, u₀, p⟩ : Item)]).countP (fun x => x.scope == u₀) = 1 := by
      simp [List.countP_cons]
    rw [e1, e2]
    split_ifs <;> omega
  · have e1 : ([(⟨nk, u₀, p⟩ : Item)]).countP
        (fun x => x.scope == u && x.pos == k) = 0 := by
      simp [List.countP_cons, hu]
    have e2 : ([(⟨nk, u₀, p⟩ : Item)]).countP (fun x => x.scope == u) = 0 := by
      simp [List.countP_cons, hu]
    rw [e1, e2]
    split_ifs <;> omega

theorem remove_contig_all (l : List Item) (m : Item) (mId : Nat)
    (hf : l.find? (fun x => x.key == mId) = some m)
    (hcm : ContigI l m.scope) :
    ∀ u, ContigI l u → ContigI ((l.eraseP (fun x => x.key == mId)).map
      (removeItem m.scope m.pos)) u := by
  have hm : m ∈ l := List.mem_of_find?_eq_some hf
  have hb := contigI_bounds hcm hm rfl
  set E := l.eraseP (fun x => x.key == mId) with hE
  have hscope : ∀ x, (removeItem m.scope m.pos x).scope = x.scope := by
    intro x; unfold removeItem; split_ifs <;> rfl
  have hecnt : ∀ j : Int,
      E.countP (fun x => x.scope == m.scope && x.pos == j) =
      if 0 ≤ j ∧ j < (itemTotal l m.scope : Int) ∧ j ≠ m.pos then 1 else 0 := by
    intro j
    have hsp := countP_eraseP_focus hf
      (fun x => x.scope == m.scope && x.pos == j)
    rw [← hE] at hsp
    have h1 := hcm j
    unfold itemCount at h1
    rw [h1] at hsp
    by_cases hj : j = m.pos
    · subst hj
      rw [if_pos (show ((m.scope == m.scope && m.pos == m.pos) = true) from
        by simp)] at hsp
      rw [if_pos (show (0 : Int) ≤ m.pos ∧ m.pos < (itemTotal l m.scope : Int)
        from hb)] at hsp
      rw [if_neg (show ¬((0 : Int) ≤ m.pos ∧
        m.pos < (itemTotal l m.scope : Int) ∧ m.pos ≠ m.pos) from by tauto)]
      omega
    · rw [if_neg (show ¬((m.scope == m.scope && m.pos == j) = true) from by
        simp only [Bool.and_eq_true, beq_iff_eq]
        rintro ⟨-, h⟩
        exact hj h.symm)] at hsp
      by_cases hjr : 0 ≤ j ∧ j < (itemTotal l m.scope : Int)
      · rw [if_pos hjr] at hsp
        rw [if_pos (show 0 ≤ j ∧ j < (itemTotal l m.scope : Int) ∧ j ≠ m.pos
          from ⟨hjr.1, hjr.2, hj⟩)]
        omega
      · rw [if_neg hjr] at hsp
        rw [if_neg (show ¬(0 ≤ j ∧ j < (itemTotal l m.scope : Int) ∧
          j ≠ m.pos) from by tauto)]
        omega
  have hecnt_other : ∀ (u : Nat), u ≠ m.scope → ∀ j : Int,
      E.countP (fun x => x.scope == u && x.pos == j) = itemCount l u j := by
    intro u hu j
    have hsp := countP_eraseP_focus hf (fun x => x.scope == u && x.pos == j)
    rw [← hE] at hsp
    rw [if_neg (show ¬((m.scope == u && m.pos == j) = true) from by
      simp only [Bool.and_eq_true, beq_iff_eq]
      rintro ⟨h, -⟩
      exact hu h.symm)] at hsp
    unfold itemCount
    omega
  have hnone : ∀ x ∈ E, x.scope = m.scope → x.pos ≠ m.pos := by
    intro x hx hs hp
    have h0 := hecnt m.pos
    rw [if_neg (show ¬((0 : Int) ≤ m.pos ∧
      m.pos < (itemTotal l m.scope : Int) ∧ m.pos ≠ m.pos) from by tauto)] at h0
    have := List.countP_eq_zero.mp h0 x hx
    simp [hs, hp] at this
  have htote : ∀ v : Nat,
      itemTotal E v + (if v = m.scope then 1 else 0) = itemTotal l v := by
    intro v
    have hsp := countP_eraseP_focus hf (fun x => x.scope == v)
    rw [← hE] at hsp
    unfold itemTotal
    by_cases hv : v = m.scope
    · rw [if_pos hv]
      rw [if_pos (show ((m.scope == v) = true) from by simp [hv])] at hsp
      omega
    · rw [if_neg hv]
      rw [if_neg (show ¬((m.scope == v) = true) from by
        simp only [beq_iff_eq]
        exact fun h => hv h.symm)] at hsp
      omega
  intro u hcu k
  unfold itemCount
  rw [countP_map_eq]
  by_cases hu : u = m.scope
  · subst hu
    have htot : itemTotal (E.map (removeItem m.scope m.pos)) m.scope =
        itemTotal l m.scope - 1 := by
      rw [itemTotal_map_scope_preserving _ hscope]
      have := htote m.scope
      rw [if_pos (show m.scope = m.scope from rfl)] at this
      omega
    rw [htot]
    have hcong : E.countP (fun x =>
        (removeItem m.scope m.pos x).scope == m.scope &&
        (removeItem m.scope m.pos x).pos == k) =
        E.countP (fun x => x.scope == m.scope &&
          x.pos == (if m.pos ≤ k then k + 1 else k)) := by
      apply List.countP_congr
      intro x hx
      have hnp := hnone x hx
      unfold removeItem
      by_cases hs : x.scope = m.scope
      · have hxp : x.pos ≠ m.pos := hnp hs
        split_ifs with h1 <;>
          simp only [Bool.and_eq_true, beq_iff_eq] <;>
          (constructor <;> rintro ⟨h2, h3⟩ <;> exact ⟨h2, by omega⟩)
      · rw [if_neg (fun h => hs h.1)]
        simp only [Bool.and_eq_true, beq_iff_eq]
        constructor <;> rintro ⟨h2, h3⟩ <;> exact absurd h2 hs
    rw [hcong, hecnt]
    have hb1 := hb.1
    have hb2 := hb.2
    split_ifs <;> omega
  · have htot : itemTotal (E.map (removeItem m.scope m.pos)) u =
        itemTotal l u := by
      rw [itemTotal_map_scope_preserving _ hscope]
      have := htote u
      rw [if_neg hu] at this
      omega
    rw [htot]
    have hcong : E.countP (fun x =>
        (removeItem m.scope m.pos x).scope == u &&
        (removeItem m.scope m.pos x).pos == k) =
        E.countP (fun x => x.scope == u && x.pos == k) := by
      apply List.countP_congr
      intro x hx
      unfold removeItem
      split_ifs with h1
      · simp only [Bool.and_eq_true, beq_iff_eq]
        constructor <;> rintro ⟨h2, h3⟩ <;>
          exact absurd (h2.symm.trans h1.1) hu
      · rfl
    rw [hcong]
    have h2 := hecnt_other u hu k
    rw [h2]
    exact hcu k

theorem move_same_contig_all (l : List Item) (m : Item) (mId : Nat) (toP : Int)
    (hf : l.find? (fun x => x.key == mId) = some m)
    (hnd : (l.map (fun x => x.key)).Nodup)
    (hc : ∀ u, ContigI l u)
    (h0 : 0 ≤ toP) (hn : toP < (itemTotal l m.scope : Int)) :
    ∀ u, ContigI (l.map (moveItem mId m.scope m.pos toP)) u := by
  have hm : m ∈ l := List.mem_of_find?_eq_some hf
  have hmk : m.key = mId := by simpa using List.find?_some hf
  have hb := contigI_bounds (hc m.scope) hm rfl
  have hscope : ∀ x, (moveItem mId m.scope m.pos toP x).scope = x.scope := by
    intro x; unfold moveItem; split_ifs <;> rfl
  have htot : ∀ u, itemTotal (l.map (moveItem mId m.scope m.pos toP)) u =
      itemTotal l u := fun u => itemTotal_map_scope_preserving _ hscope l u
  have hmv : moveItem mId m.scope m.pos toP m = { m with pos := toP } := by
    unfold moveItem; rw [if_pos hmk]
  have hother : ∀ x ∈ l, x.key ≠ mId → ¬(x.scope = m.scope ∧ x.pos = m.pos) := by
    intro x hx hk hsp
    have hsplit := countP_split_key (fun y : Item => y.key) hnd hf
      (fun y => y.scope == m.scope && y.pos == m.pos)
    have h1 := hc m.scope m.pos
    unfold itemCount at h1
    rw [h1, if_pos hb] at hsplit
    rw [if_pos (show ((m.scope == m.scope && m.pos == m.pos) = true) from
      by simp)] at hsplit
    have hx0 : 0 < l.countP (fun y => !(y.key == mId) &&
        (y.scope == m.scope && y.pos == m.pos)) := by
      rw [List.countP_pos_iff]
      exact ⟨x, hx, by simp [hk, hsp.1, hsp.2]⟩
    omega
  intro u k
  unfold itemCount
  rw [countP_map_eq, htot]
  have hsplit := countP_split_key (fun y : Item => y.key) hnd hf
    (fun y => (moveItem mId m.scope m.pos toP y).scope == u &&
      (moveItem mId m.scope m.pos toP y).pos == k)
  rw [hsplit]
  by_cases hu : u = m.scope
  · subst hu
    by_cases hk : k = toP
    · rw [if_pos (show (((moveItem mId m.scope m.pos toP m).scope == m.scope) &&
          ((moveItem mId m.scope m.pos toP m).pos == k)) = true from
        by rw [hmv, hk]; simp)]
      have hz : l.countP (fun y => !(y.key == mId) &&
          ((moveItem mId m.scope m.pos toP y).scope == m.scope &&
           (moveItem mId m.scope m.pos toP y).pos == k)) = 0 := by
        rw [List.countP_eq_zero]
        intro x hx
        by_cases hxk : x.key = mId
        · simp [hxk]
        · have hmvx : moveItem mId m.scope m.pos toP x =
              if x.scope = m.scope then
                { x with pos := shiftSame m.pos toP x.pos } else x := by
            unfold moveItem; rw [if_neg hxk]
          rw [hmvx]
          by_cases hxs : x.scope = m.scope
          · rw [if_pos hxs]
            have hxp : x.pos ≠ m.pos := fun h => hother x hx hxk ⟨hxs, h⟩
            simp only [Bool.and_eq_true, Bool.not_eq_true', beq_iff_eq,
              beq_eq_false_iff_ne, ne_eq]
            rintro ⟨-, -, h3⟩
            unfold shiftSame at h3
            split_ifs at h3 <;> omega
          · rw [if_neg hxs]
            simp only [Bool.and_eq_true, Bool.not_eq_true', beq_iff_eq,
              beq_eq_false_iff_ne, ne_eq]
            rintro ⟨-, h2, -⟩
            exact hxs h2
      rw [hz, if_pos (show 0 ≤ k ∧ k < (itemTotal l m.scope : Int) from
        by omega)]
    · rw [if_neg (show ¬(((moveItem mId m.scope m.pos toP m).scope == m.scope) &&
          ((moveItem mId m.scope m.pos toP m).pos == k)) = true from by
        rw [hmv]
        simp only [Bool.and_eq_true, beq_iff_eq]
        rintro ⟨-, h⟩
        exact hk h.symm)]
      set ψ : Int :=
        if m.pos < toP ∧ m.pos ≤ k ∧ k < toP then k + 1
        else if toP < m.pos ∧ toP < k ∧ k ≤ m.pos then k - 1
        else k with hψ
      have hcong : l.countP (fun y => !(y.key == mId) &&
          ((moveItem mId m.scope m.pos toP y).scope == m.scope &&
           (moveItem mId m.scope m.pos toP y).pos == k)) =
          l.countP (fun y => !(y.key == mId) &&
            (y.scope == m.scope && y.pos == ψ)) := by
        apply List.countP_congr
        intro x hx
        by_cases hxk : x.key = mId
        · simp [hxk]
        · have hmvx : moveItem mId m.scope m.pos toP x =
              if x.scope = m.scope then
                { x with pos := shiftSame m.pos toP x.pos } else x := by
            unfold moveItem; rw [if_neg hxk]
          rw [hmvx]
          by_cases hxs : x.scope = m.scope
          · rw [if_pos hxs]
            have hxp : x.pos ≠ m.pos := fun h => hother x hx hxk ⟨hxs, h⟩
            simp only [Bool.and_eq_true, Bool.not_eq_true', beq_iff_eq,
              beq_eq_false_iff_ne, ne_eq]
            unfold shiftSame
            rw [hψ]
            constructor <;>
              (rintro ⟨h1, h2, h3⟩
               refine ⟨h1, h2, ?_⟩
               split_ifs at h3 ⊢ <;> omega)
          · rw [if_neg hxs]
            simp only [Bool.and_eq_true, Bool.not_eq_true', beq_iff_eq,
              beq_eq_false_iff_ne, ne_eq]
            constructor <;> rintro ⟨h1, h2, h3⟩ <;> exact absurd h2 hxs
      rw [hcong]
      have hsplit2 := countP_split_key (fun y : Item => y.key) hnd hf
        (fun y => y.scope == m.scope && y.pos == ψ)
      have hq := hc m.scope ψ
      unfold itemCount at hq
      rw [hq] at hsplit2
      have hmψ : ¬((m.scope == m.scope && m.pos == ψ) = true) := by
        simp only [Bool.and_eq_true, beq_iff_eq]
        rintro ⟨-, h⟩
        rw [hψ] at h
        split_ifs at h <;> omega
      rw [if_neg hmψ] at hsplit2
      have hb1 := hb.1
      have hb2 := hb.2
      rw [hψ] at hsplit2 ⊢
      split_ifs at hsplit2 ⊢ <;> omega
  · rw [if_neg (show ¬(((moveItem mId m.scope m.pos toP m).scope == u) &&
        ((moveItem mId m.scope m.pos toP m).pos == k)) = true from by
      rw [hmv]
      simp only [Bool.and_eq_true, beq_iff_eq]
      rintro ⟨h, -⟩
      exact hu h.symm)]
    have hcong : l.countP (fun y => !(y.key == mId) &&
        ((moveItem mId m.scope m.pos toP y).scope == u &&
         (moveItem mId m.scope m.pos toP y).pos == k)) =
        l.countP (fun y => !(y.key == mId) && (y.scope == u && y.pos == k)) := by
      apply List.countP_congr
      intro x hx
      by_cases hxk : x.key = mId
      · simp [hxk]
      · have hmvx : moveItem mId m.scope m.pos toP x =
            if x.scope = m.scope then
              { x with pos := shiftSame m.pos toP x.pos } else x := by
          unfold moveItem; rw [if_neg hxk]
        rw [hmvx]
        by_cases hxs : x.scope = m.scope
        · rw [if_pos hxs]
          simp only [Bool.and_eq_true, Bool.not_eq_true', beq_iff_eq,
            beq_eq_false_iff_ne, ne_eq]
          constructor <;> rintro ⟨h1, h2, h3⟩ <;>
            exact absurd (h2.symm.trans hxs) hu
        · rw [if_neg hxs]
    rw [hcong]
    have hsplit2 := countP_split_key (fun y : Item => y.key) hnd hf
      (fun y => y.scope == u && y.pos == k)
    have hq := hc u k
    unfold itemCount at hq
    rw [hq] at hsplit2
    rw [if_neg (show ¬((m.scope == u && m.pos == k) = true) from by
      simp only [Bool.and_eq_true, beq_iff_eq]
      rintro ⟨h, -⟩
      exact hu h.symm)] at hsplit2
    omega

theorem cross_contig_all (l : List Item) (m : Item) (mId : Nat) (tgt : Nat)
    (toP : Int)
    (hf : l.find? (fun x => x.key == mId) = some m)
    (hnd : (l.map (fun x => x.key)).Nodup)
    (hc : ∀ u, ContigI l u)
    (htgt : tgt ≠ m.scope)
    (h0 : 0 ≤ toP) (hn : toP ≤ (itemTotal l tgt : Int)) :
    ∀ u, ContigI (l.map (crossItem mId m.scope tgt m.pos toP)) u := by
  have hm : m ∈ l := List.mem_of_find?_eq_some hf
  have hmk : m.key = mId := by simpa using List.find?_some hf
  have hb := contigI_bounds (hc m.scope) hm rfl
  have hmv : crossItem mId m.scope tgt m.pos toP m = ⟨m.key, tgt, toP⟩ := by
    unfold crossItem; rw [if_pos hmk]
  have hcx : ∀ x : Item, x.key ≠ mId →
      crossItem mId m.scope tgt m.pos toP x =
        if x.scope = m.scope ∧ m.pos < x.pos then { x with pos := x.pos - 1 }
        else if x.scope = tgt ∧ toP ≤ x.pos then { x with pos := x.pos + 1 }
        else x := by
    intro x hxk; unfold crossItem; rw [if_neg hxk]
  have hother : ∀ x ∈ l, x.key ≠ mId → ¬(x.scope = m.scope ∧ x.pos = m.pos) := by
    intro x hx hk hsp
    have hsplit := countP_split_key (fun y : Item => y.key) hnd hf
      (fun y => y.scope == m.scope && y.pos == m.pos)
    have h1 := hc m.scope m.pos
    unfold itemCount at h1
    rw [h1, if_pos hb] at hsplit
    rw [if_pos (show ((m.scope == m.scope && m.pos == m.pos) = true) from
      by simp)] at hsplit
    have hx0 : 0 < l.countP (fun y => !(y.key == mId) &&
        (y.scope == m.scope && y.pos == m.pos)) := by
      rw [List.countP_pos_iff]
      exact ⟨x, hx, by simp [hk, hsp.1, hsp.2]⟩
    omega
  -- totals after the move
  have htotal : ∀ u, itemTotal (l.map (crossItem mId m.scope tgt m.pos toP)) u +
      (if u = m.scope then 1 else 0) =
      itemTotal l u + (if u = tgt then 1 else 0) := by
    intro u
    unfold itemTotal
    rw [countP_map_eq]
    have hsplit := countP_split_key (fun y : Item => y.key) hnd hf
      (fun y => (crossItem mId m.scope tgt m.pos toP y).scope == u)
    rw [hsplit]
    have hsplit2 := countP_split_key (fun y : Item => y.key) hnd hf
      (fun y => y.scope == u)
    rw [hsplit2]
    have hcong : l.countP (fun y => !(y.key == mId) &&
        ((crossItem mId m.scope tgt m.pos toP y).scope == u)) =
        l.countP (fun y => !(y.key == mId) && (y.scope == u)) := by
      apply List.countP_congr
      intro x hx
      by_cases hxk : x.key = mId
      · simp [hxk]
      · rw [hcx x hxk]
        split_ifs <;> rfl
    rw [hcong, hmv]
    by_cases hu1 : u = m.scope
    · rw [if_pos hu1]
      rw [if_neg (show ¬(((⟨m.key, tgt, toP⟩ : Item).scope == u) = true) from by
        simp only [beq_iff_eq]
        exact fun h => htgt (h.trans hu1))]
      rw [if_pos (show ((m.scope == u) = true) from by simp [hu1])]
      rw [if_neg (show ¬(u = tgt) from fun h => htgt (h.symm.trans hu1))]
      omega
    · rw [if_neg hu1]
      rw [if_neg (show ¬((m.scope == u) = true) from by
        simp only [beq_iff_eq]
        exact fun h => hu1 h.symm)]
      by_cases hu2 : u = tgt
      · rw [if_pos hu2]
        rw [if_pos (show (((⟨m.key, tgt, toP⟩ : Item).scope == u) = true) from
          by simp [hu2])]
        omega
      · rw [if_neg hu2]
        rw [if_neg (show ¬(((⟨m.key, tgt, toP⟩ : Item).scope == u) = true) from
          by
          simp only [beq_iff_eq]
          exact fun h => hu2 h.symm)]
  intro u k
  unfold itemCount
  rw [countP_map_eq]
  have hsplit := countP_split_key (fun y : Item => y.key) hnd hf
    (fun y => (crossItem mId m.scope tgt m.pos toP y).scope == u &&
      (crossItem mId m.scope tgt m.pos toP y).pos == k)
  rw [hsplit]
  by_cases hu1 : u = m.scope
  · -- source scope: the gap at m.pos closes
    subst hu1
    rw [if_neg (show ¬(((crossItem mId m.scope tgt m.pos toP m).scope == m.scope &&
        (crossItem mId m.scope tgt m.pos toP m).pos == k) = true) from by
      rw [hmv]
      simp only [Bool.and_eq_true, beq_iff_eq]
      rintro ⟨h, -⟩
      exact htgt h)]
    have hcong : l.countP (fun y => !(y.key == mId) &&
        ((crossItem mId m.scope tgt m.pos toP y).scope == m.scope &&
         (crossItem mId m.scope tgt m.pos toP y).pos == k)) =
        l.countP (fun y => !(y.key == mId) && (y.scope == m.scope &&
          y.pos == (if m.pos ≤ k then k + 1 else k))) := by
      apply List.countP_congr
      intro x hx
      by_cases hxk : x.key = mId
      · simp [hxk]
      · rw [hcx x hxk]
        by_cases hxs : x.scope = m.scope
        · have hxp : x.pos ≠ m.pos := fun h => hother x hx hxk ⟨hxs, h⟩
          have hnB : ¬(x.scope = tgt ∧ toP ≤ x.pos) := fun h =>
            htgt (h.1.symm.trans hxs)
          by_cases hA : x.scope = m.scope ∧ m.pos < x.pos
          · rw [if_pos hA]
            simp only [Bool.and_eq_true, Bool.not_eq_true', beq_iff_eq,
              beq_eq_false_iff_ne, ne_eq]
            constructor <;>
              (rintro ⟨h1, h2, h3⟩
               refine ⟨h1, h2, ?_⟩
               have hA2 := hA.2
               split_ifs at h3 ⊢ <;> omega)
          · rw [if_neg hA, if_neg hnB]
            simp only [Bool.and_eq_true, Bool.not_eq_true', beq_iff_eq,
              beq_eq_false_iff_ne, ne_eq]
            have hle : ¬ m.pos < x.pos := fun hlt => hA ⟨hxs, hlt⟩
            constructor <;>
              (rintro ⟨h1, h2, h3⟩
               refine ⟨h1, h2, ?_⟩
               split_ifs at h3 ⊢ <;> omega)
        · have hA : ¬(x.scope = m.scope ∧ m.pos < x.pos) := fun h => hxs h.1
          rw [if_neg hA]
          by_cases hB : x.scope = tgt ∧ toP ≤ x.pos
          · rw [if_pos hB]
            simp only [Bool.and_eq_true, Bool.not_eq_true', beq_iff_eq,
              beq_eq_false_iff_ne, ne_eq]
            constructor <;> rintro ⟨h1, h2, h3⟩ <;> exact absurd h2 hxs
          · rw [if_neg hB]
            simp only [Bool.and_eq_true, Bool.not_eq_true', beq_iff_eq,
              beq_eq_false_iff_ne, ne_eq]
            constructor <;> rintro ⟨h1, h2, h3⟩ <;> exact absurd h2 hxs
    rw [hcong]
    have hsplit2 := countP_split_key (fun y : Item => y.key) hnd hf
      (fun y => y.scope == m.scope &&
        y.pos == (if m.pos ≤ k then k + 1 else k))
    have hq := hc m.scope (if m.pos ≤ k then k + 1 else k)
    unfold itemCount at hq
    rw [hq] at hsplit2
    rw [if_neg (show ¬((m.scope == m.scope &&
        m.pos == (if m.pos ≤ k then k + 1 else k)) = true) from by
      simp only [Bool.and_eq_true, beq_iff_eq]
      rintro ⟨-, h⟩
      split_ifs at h <;> omega)] at hsplit2
    have htotu := htotal m.scope
    rw [if_pos (show m.scope = m.scope from rfl)] at htotu
    rw [if_neg (show ¬(m.scope = tgt) from fun h => htgt h.symm)] at htotu
    have hb1 := hb.1
    have hb2 := hb.2
    split_ifs at hsplit2 ⊢ <;> omega
  · by_cases hu2 : tgt = u
    · subst hu2
      by_cases hk : k = toP
      · rw [if_pos (show (((crossItem mId m.scope tgt m.pos toP m).scope == tgt &&
            (crossItem mId m.scope tgt m.pos toP m).pos == k) = true) from by
          rw [hmv, hk]; simp)]
        have hz : l.countP (fun y => !(y.key == mId) &&
            ((crossItem mId m.scope tgt m.pos toP y).scope == tgt &&
             (crossItem mId m.scope tgt m.pos toP y).pos == k)) = 0 := by
          rw [List.countP_eq_zero]
          intro x hx
          by_cases hxk : x.key = mId
          · simp [hxk]
          · rw [hcx x hxk]
            by_cases hxt : x.scope = tgt
            · have hA : ¬(x.scope = m.scope ∧ m.pos < x.pos) := fun h =>
                htgt (hxt.symm.trans h.1)
              rw [if_neg hA]
              by_cases hB : x.scope = tgt ∧ toP ≤ x.pos
              · rw [if_pos hB]
                simp only [Bool.and_eq_true, Bool.not_eq_true', beq_iff_eq,
                  beq_eq_false_iff_ne, ne_eq]
                rintro ⟨-, -, h3⟩
                have hB2 := hB.2
                omega
              · rw [if_neg hB]
                simp only [Bool.and_eq_true, Bool.not_eq_true', beq_iff_eq,
                  beq_eq_false_iff_ne, ne_eq]
                rintro ⟨-, -, h3⟩
                have hlt : ¬ toP ≤ x.pos := fun hle => hB ⟨hxt, hle⟩
                omega
            · split_ifs <;>
                (simp only [Bool.and_eq_true, Bool.not_eq_true', beq_iff_eq,
                  beq_eq_false_iff_ne, ne_eq]
                 rintro ⟨-, h2, -⟩
                 exact hxt h2)
        rw [hz]
        have htotu := htotal tgt
        rw [if_neg (show ¬(tgt = m.scope) from htgt)] at htotu
        rw [if_pos (show tgt = tgt from rfl)] at htotu
        split_ifs <;> omega
      · rw [if_neg (show ¬(((crossItem mId m.scope tgt m.pos toP m).scope == tgt &&
            (crossItem mId m.scope tgt m.pos toP m).pos == k) = true) from by
          rw [hmv]
          simp only [Bool.and_eq_true, beq_iff_eq]
          rintro ⟨-, h⟩
          exact hk h.symm)]
        have hcong : l.countP (fun y => !(y.key == mId) &&
            ((crossItem mId m.scope tgt m.pos toP y).scope == tgt &&
             (crossItem mId m.scope tgt m.pos toP y).pos == k)) =
            l.countP (fun y => !(y.key == mId) && (y.scope == tgt &&
              y.pos == (if toP < k then k - 1 else k))) := by
          apply List.countP_congr
          intro x hx
          by_cases hxk : x.key = mId
          · simp [hxk]
          · rw [hcx x hxk]
            by_cases hxt : x.scope = tgt
            · have hA : ¬(x.scope = m.scope ∧ m.pos < x.pos) := fun h =>
                htgt (hxt.symm.trans h.1)
              rw [if_neg hA]
              by_cases hB : x.scope = tgt ∧ toP ≤ x.pos
              · rw [if_pos hB]
                simp only [Bool.and_eq_true, Bool.not_eq_true', beq_iff_eq,
                  beq_eq_false_iff_ne, ne_eq]
                have hB2 := hB.2
                constructor <;>
                  (rintro ⟨h1, h2, h3⟩
                   refine ⟨h1, h2, ?_⟩
                   split_ifs at h3 ⊢ <;> omega)
              · rw [if_neg hB]
                simp only [Bool.and_eq_true, Bool.not_eq_true', beq_iff_eq,
                  beq_eq_false_iff_ne, ne_eq]
                have hlt : ¬ toP ≤ x.pos := fun hle => hB ⟨hxt, hle⟩
                constructor <;>
                  (rintro ⟨h1, h2, h3⟩
                   refine ⟨h1, h2, ?_⟩
                   split_ifs at h3 ⊢ <;> omega)
            · split_ifs <;>
                simp only [Bool.and_eq_true, Bool.not_eq_true', beq_iff_eq,
                  beq_eq_false_iff_ne, ne_eq] <;>
                exact ⟨fun h => absurd h.2.1 hxt, fun h => absurd h.2.1 hxt⟩
        rw [hcong]
        have hsplit2 := countP_split_key (fun y : Item => y.key) hnd hf
          (fun y => y.scope == tgt && y.pos == (if toP < k then k - 1 else k))
        have hq := hc tgt (if toP < k then k - 1 else k)
        unfold itemCount at hq
        rw [hq] at hsplit2
        rw [if_neg (show ¬((m.scope == tgt &&
            m.pos == (if toP < k then k - 1 else k)) = true) from by
          simp only [Bool.and_eq_true, beq_iff_eq]
          rintro ⟨h, -⟩
          exact htgt h.symm)] at hsplit2
        have htotu := htotal tgt
        rw [if_neg (show ¬(tgt = m.scope) from htgt)] at htotu
        rw [if_pos (show tgt = tgt from rfl)] at htotu
        split_ifs at hsplit2 ⊢ <;> omega
    · rw [if_neg (show ¬(((crossItem mId m.scope tgt m.pos toP m).scope == u &&
          (crossItem mId m.scope tgt m.pos toP m).pos == k) = true) from by
        rw [hmv]
        simp only [Bool.and_eq_true, beq_iff_eq]
        rintro ⟨h, -⟩
        exact hu2 h)]
      have hcong : l.countP (fun y => !(y.key == mId) &&
          ((crossItem mId m.scope tgt m.pos toP y).scope == u &&
           (crossItem mId m.scope tgt m.pos toP y).pos == k)) =
          l.countP (fun y => !(y.key == mId) &&
            (y.scope == u && y.pos == k)) := by
        apply List.countP_congr
        intro x hx
        by_cases hxk : x.key = mId
        · simp [hxk]
        · rw [hcx x hxk]
          split_ifs with hA hB
          · simp only [Bool.and_eq_true, Bool.not_eq_true', beq_iff_eq,
              beq_eq_false_iff_ne, ne_eq]
            constructor <;> rintro ⟨h1, h2, h3⟩ <;>
              exact absurd (h2.symm.trans hA.1) hu1
          · simp only [Bool.and_eq_true, Bool.not_eq_true', beq_iff_eq,
              beq_eq_false_iff_ne, ne_eq]
            constructor <;> rintro ⟨h1, h2, h3⟩ <;>
              exact absurd (hB.1.symm.trans h2) hu2
          · exact Iff.rfl
      rw [hcong]
      have hsplit2 := countP_split_key (fun y : Item => y.key) hnd hf
        (fun y => y.scope == u && y.pos == k)
      have hq := hc u k
      unfold itemCount at hq
      rw [hq] at hsplit2
      rw [if_neg (show ¬((m.scope == u && m.pos == k) = true) from by
        simp only [Bool.and_eq_true, beq_iff_eq]
        rintro ⟨h, -⟩
        exact hu1 h.symm)] at hsplit2
      have htotu := htotal u
      rw [if_neg hu1, if_neg (show ¬(u = tgt) from fun h => hu2 h.symm)] at htotu
      split_ifs at hsplit2 ⊢ <;> omega

/-! The greatest position of a contiguous scope, and the resulting
insert-at-end position. -/

theorem max?_of_contiguous {ps : List Int} (h : contiguous ps) (hne : ps ≠ []) :
    ps.max? = some ((ps.length : Int) - 1) := by
  have hcnt := (contiguous_iff_count ps).mp h
  obtain ⟨m, hm⟩ : ∃ m, ps.max? = some m := by
    cases hmx : ps.max? with
    | none => exact absurd (List.max?_eq_none_iff.mp hmx) hne
    | some m => exact ⟨m, rfl⟩
  have hmem : m ∈ ps := List.max?_mem (fun _ _ => max_choice ..) hm
  have hub : ∀ b ∈ ps, b ≤ m :=
    (List.max?_le_iff (fun _ _ _ => max_le_iff) hm).mp (le_refl m)
  have hlt : ∀ b ∈ ps, b < (ps.length : Int) := by
    intro b hb
    have h1 := hcnt b
    have h2 : 0 < ps.count b := List.count_pos_iff.mpr hb
    by_cases hr : 0 ≤ b ∧ b < (ps.length : Int)
    · exact hr.2
    · rw [if_neg hr] at h1
      omega
  have htop : ((ps.length : Int) - 1) ∈ ps := by
    have hlen : ps.length ≠ 0 := fun h0 => hne (List.length_eq_zero.mp h0)
    have h1 := hcnt ((ps.length : Int) - 1)
    rw [if_pos (by omega)] at h1
    have : 0 < ps.count ((ps.length : Int) - 1) := by omega
    exact List.count_pos_iff.mp this
  have h1 : m ≤ (ps.length : Int) - 1 := by
    have := hlt m hmem
    omega
  have h2 : (ps.length : Int) - 1 ≤ m := hub _ htop
  rw [hm]
  congr 1
  omega

theorem insertPos_of_contiguous {ps : List Int} (h : contiguous ps) :
    ps.max?.getD (-1) + 1 = (ps.length : Int) := by
  cases hne : ps with
  | nil => simp
  | cons y ys =>
    rw [← hne, max?_of_contiguous h (by rw [hne]; exact List.cons_ne_nil y ys)]
    simp

theorem insertPosMatch_of_contiguous {ps : List Int} (h : contiguous ps) :
    (match ps.max? with
     | some mp => mp + 1
     | none => 0) = (ps.length : Int) := by
  cases hne : ps with
  | nil => simp
  | cons y ys =>
    rw [← hne, max?_of_contiguous h (by rw [hne]; exact List.cons_ne_nil y ys)]
    simp

/-! Bridges between the tables and the `Item` view. -/

theorem count_columnPositions (db : Db) (b : Nat) (k : Int) :
    (columnPositions db b).count k = itemCount (db.columns.map colItem) b k := by
  unfold columnPositions boardColumns itemCount
  rw [List.count_eq_countP, List.countP_map, List.countP_filter, List.countP_map]
  apply List.countP_congr
  intro c _
  show ((c.position == k) && (c.boardId == b)) = true ↔
    ((c.boardId == b) && (c.position == k)) = true
  rw [Bool.and_comm]

theorem length_columnPositions (db : Db) (b : Nat) :
    (columnPositions db b).length = itemTotal (db.columns.map colItem) b := by
  unfold columnPositions boardColumns itemTotal
  rw [List.length_map, ← List.countP_eq_length_filter, List.countP_map]
  rfl

theorem contiguous_cols_iff (db : Db) (b : Nat) :
    contiguous (columnPositions db b) ↔ ContigI (db.columns.map colItem) b := by
  rw [contiguous_iff_count]
  unfold ContigI
  constructor
  · intro h k
    rw [← count_columnPositions, ← length_columnPositions]
    exact h k
  · intro h k
    rw [count_columnPositions, length_columnPositions]
    exact h k

theorem count_taskPositions (db : Db) (cid : Nat) (k : Int) :
    (taskPositions db cid).count k = itemCount (db.tasks.map taskItem) cid k := by
  unfold taskPositions columnTasks itemCount
  rw [List.count_eq_countP, List.countP_map, List.countP_filter, List.countP_map]
  apply List.countP_congr
  intro t _
  show ((t.position == k) && (t.columnId == cid)) = true ↔
    ((t.columnId == cid) && (t.position == k)) = true
  rw [Bool.and_comm]

theorem length_taskPositions (db : Db) (cid : Nat) :
    (taskPositions db cid).length = itemTotal (db.tasks.map taskItem) cid := by
  unfold taskPositions columnTasks itemTotal
  rw [List.length_map, ← List.countP_eq_length_filter, List.countP_map]
  rfl

theorem contiguous_tasks_iff (db : Db) (cid : Nat) :
    contiguous (taskPositions db cid) ↔ ContigI (db.tasks.map taskItem) cid := by
  rw [contiguous_iff_count]
  unfold ContigI
  constructor
  · intro h k
    rw [← count_taskPositions, ← length_taskPositions]
    exact h k
  · intro h k
    rw [count_taskPositions, length_taskPositions]
    exact h k

theorem inv_to_all {db : Db} (hI : Inv db) :
    (∀ b, ContigI (db.columns.map colItem) b) ∧
    (∀ cid, ContigI (db.tasks.map taskItem) cid) := by
  constructor
  · intro b
    by_cases hb : b ∈ db.columns.map (fun c => c.boardId)
    · exact (contiguous_cols_iff db b).mp (hI.1 b hb)
    · intro k
      have h0 : itemCount (db.columns.map colItem) b k = 0 := by
        unfold itemCount
        rw [List.countP_eq_zero]
        intro x hx
        rcases List.mem_map.mp hx with ⟨c, hc, rfl⟩
        simp only [Bool.and_eq_true, beq_iff_eq]
        rintro ⟨h1, -⟩
        exact hb (by rw [← h1]; exact List.mem_map_of_mem _ hc)
      have ht : itemTotal (db.columns.map colItem) b = 0 := by
        unfold itemTotal
        rw [List.countP_eq_zero]
        intro x hx
        rcases List.mem_map.mp hx with ⟨c, hc, rfl⟩
        simp only [beq_iff_eq]
        intro h1
        exact hb (by rw [← h1]; exact List.mem_map_of_mem _ hc)
      rw [h0, ht, if_neg (by omega)]
  · intro cid
    by_cases hb : cid ∈ db.tasks.map (fun t => t.columnId)
    · exact (contiguous_tasks_iff db cid).mp (hI.2 cid hb)
    · intro k
      have h0 : itemCount (db.tasks.map taskItem) cid k = 0 := by
        unfold itemCount
        rw [List.countP_eq_zero]
        intro x hx
        rcases List.mem_map.mp hx with ⟨t, ht, rfl⟩
        simp only [Bool.and_eq_true, beq_iff_eq]
        rintro ⟨h1, -⟩
        exact hb (by rw [← h1]; exact List.mem_map_of_mem _ ht)
      have ht : itemTotal (db.tasks.map taskItem) cid = 0 := by
        unfold itemTotal
        rw [List.countP_eq_zero]
        intro x hx
        rcases List.mem_map.mp hx with ⟨t, ht', rfl⟩
        simp only [beq_iff_eq]
        intro h1
        exact hb (by rw [← h1]; exact List.mem_map_of_mem _ ht')
      rw [h0, ht, if_neg (by omega)]

theorem all_to_inv {db : Db}
    (h : (∀ b, ContigI (db.columns.map colItem) b) ∧
         (∀ cid, ContigI (db.tasks.map taskItem) cid)) : Inv db :=
  ⟨fun b _ => (contiguous_cols_iff db b).mpr (h.1 b),
   fun cid _ => (contiguous_tasks_iff db cid).mpr (h.2 cid)⟩

/-! Pointwise commutation of the table shifts with the `Item` view. -/

theorem colItem_specSameParentShift (movedId b : Nat) (fromP toP : Int)
    (c : Column) :
    colItem (specSameParentColumnShift movedId b fromP toP c) =
      moveItem movedId b fromP toP (colItem c) := by
  simp only [specSameParentColumnShift, moveItem, shiftSame, colItem]
  split_ifs <;> first | rfl | (exfalso; omega)

theorem taskItem_specSameParentShift (movedId cid : Nat) (fromP toP : Int)
    (t : Task) :
    taskItem (specSameParentTaskShift movedId cid fromP toP t) =
      moveItem movedId cid fromP toP (taskItem t) := by
  simp only [specSameParentTaskShift, moveItem, shiftSame, taskItem]
  split_ifs <;> first | rfl | (exfalso; omega)

theorem colItem_specRemoveShift (b : Nat) (p : Int) (c : Column) :
    colItem (specRemoveShiftColumn b p c) = removeItem b p (colItem c) := by
  simp only [specRemoveShiftColumn, removeItem, colItem]
  split_ifs <;> first | rfl | (exfalso; omega)

theorem taskItem_specRemoveShift (cid : Nat) (p : Int) (t : Task) :
    taskItem (specRemoveShiftTask cid p t) = removeItem cid p (taskItem t) := by
  simp only [specRemoveShiftTask, removeItem, taskItem]
  split_ifs <;> first | rfl | (exfalso; omega)

theorem taskItem_specCrossColumnMove (movedId src tgt : Nat) (fromP toP : Int)
    (t : Task) :
    taskItem (specCrossColumnMove movedId src tgt fromP toP t) =
      crossItem movedId src tgt fromP toP (taskItem t) := by
  simp only [specCrossColumnMove, crossItem, taskItem]
  split_ifs <;> first | rfl | (exfalso; omega)

theorem map_eraseP {α β : Type} (f : α → β) (p : α → Bool) (q : β → Bool)
    (hq : ∀ x, q (f x) = p x) (l : List α) :
    (l.eraseP p).map f = (l.map f).eraseP q := by
  induction l with
  | nil => simp
  | cons y ys ih =>
    simp only [List.eraseP_cons, List.map_cons, hq y]
    cases hp : p y
    · simp [ih]
    · simp

theorem find?_colItem (db : Db) (id : Nat) (c : Column)
    (hf : findColumn db id = some c) :
    (db.columns.map colItem).find? (fun x => x.key == id) = some (colItem c) := by
  rw [List.find?_map]
  show Option.map colItem (db.columns.find? (fun c => c.id == id)) = _
  rw [show db.columns.find? (fun c => c.id == id) = some c from hf]
  rfl

theorem find?_taskItem (db : Db) (id : Nat) (t : Task)
    (hf : findTask db id = some t) :
    (db.tasks.map taskItem).find? (fun x => x.key == id) = some (taskItem t) := by
  rw [List.find?_map]
  show Option.map taskItem (db.tasks.find? (fun t => t.id == id)) = _
  rw [show db.tasks.find? (fun t => t.id == id) = some t from hf]
  rfl

theorem nodup_colItem (db : Db) (h : (db.columns.map (fun c => c.id)).Nodup) :
    ((db.columns.map colItem).map (fun x => x.key)).Nodup := by
  rw [List.map_map]
  exact h

theorem nodup_taskItem (db : Db) (h : (db.tasks.map (fun t => t.id)).Nodup) :
    ((db.tasks.map taskItem).map (fun x => x.key)).Nodup := by
  rw [List.map_map]
  exact h

/-! Closed forms of the successful controller calls. -/

theorem createColumn_ok (db : Db) (newId : Nat) (nm : String) (b : Nat)
    (hb : b ∈ db.boards) (hnew : findColumn db newId = none) :
    ColumnController.createColumn db newId nm b none =
      .ok ({ db with columns := db.columns ++
          [⟨newId, b, nm, (maxColumnPosition db b).getD (-1) + 1⟩] },
        ⟨newId, b, nm, (maxColumnPosition db b).getD (-1) + 1⟩) := by
  unfold ColumnController.createColumn
  rw [if_neg (show ¬ b ∉ db.boards from fun h => h hb)]
  rw [if_neg (show ¬ ((findColumn db newId).isSome = true) from by
    rw [hnew]; simp)]

theorem createTask_ok (db : Db) (newId : Nat) (ttl : String) (cid : Nat)
    (col : Column) (hcol : findColumn db cid = some col)
    (hnew : findTask db newId = none) :
    TaskController.createTask db newId ttl cid none =
      .ok ({ db with tasks := db.tasks ++
          [⟨newId, cid, ttl,
            match maxTaskPosition db cid with
            | some m => m + 1
            | none => 0⟩] },
        ⟨newId, cid, ttl,
          match maxTaskPosition db cid with
          | some m => m + 1
          | none => 0⟩) := by
  simp only [TaskController.createTask, hcol]
  rw [if_neg (show ¬ ((findTask db newId).isSome = true) from by
    rw [hnew]; simp)]

theorem deleteColumn_ok (db : Db) (id : Nat) (c : Column)
    (hf : findColumn db id = some c) (hz : columnTasks db id = []) :
    ColumnController.deleteColumn db id =
      .ok { db with columns := (db.columns.eraseP (fun x => x.id == id)).map (specRemoveShiftColumn c.boardId c.position) } := by
  simp only [ColumnController.deleteColumn, hf, hz]
  rw [if_neg (show ¬ (([] : List Task).length > 0) from by simp)]
  rfl

theorem deleteTask_ok (db : Db) (id : Nat) (t : Task)
    (hf : findTask db id = some t) :
    TaskController.deleteTask db id =
      .ok { db with tasks := (db.tasks.eraseP (fun x => x.id == id)).map (specRemoveShiftTask t.columnId t.position) } := by
  simp only [TaskController.deleteTask, hf]
  rfl

theorem reorderColumn_ok (db : Db) (id : Nat) (pos : Int) (c : Column)
    (hf : findColumn db id = some c) :
    ColumnController.reorderColumn db id pos =
      .ok { db with columns :=
        db.columns.map (specSameParentColumnShift id c.boardId c.position pos) } := by
  simp only [ColumnController.reorderColumn, hf]
  refine congrArg (fun l : List Column =>
    (Except.ok { db with columns := l } : Except Err Db)) ?_
  by_cases h1 : pos > c.position
  · rw [if_pos h1, List.map_map]
    apply List.map_congr_left
    intro x _
    simp only [Function.comp_apply]
    by_cases hA : x.boardId = c.boardId ∧ c.position < x.position ∧
        x.position ≤ pos
    · rw [if_pos hA]
      dsimp only
      by_cases hid : x.id = id
      · rw [if_pos hid]
        unfold specSameParentColumnShift
        rw [if_pos hid]
      · rw [if_neg hid]
        unfold specSameParentColumnShift
        rw [if_neg hid,
          if_pos (show x.boardId = c.boardId ∧ c.position < pos ∧
            c.position < x.position ∧ x.position ≤ pos from
            ⟨hA.1, by omega, hA.2.1, hA.2.2⟩)]
    · rw [if_neg hA]
      by_cases hid : x.id = id
      · rw [if_pos hid]
        unfold specSameParentColumnShift
        rw [if_pos hid]
      · rw [if_neg hid]
        unfold specSameParentColumnShift
        rw [if_neg hid,
          if_neg (show ¬(x.boardId = c.boardId ∧ c.position < pos ∧
            c.position < x.position ∧ x.position ≤ pos) from
            fun h => hA ⟨h.1, h.2.2.1, h.2.2.2⟩),
          if_neg (show ¬(x.boardId = c.boardId ∧ pos < c.position ∧
            pos ≤ x.position ∧ x.position < c.position) from by
            rintro ⟨-, h, -⟩; omega)]
  · rw [if_neg h1]
    by_cases h2 : pos < c.position
    · rw [if_pos h2, List.map_map]
      apply List.map_congr_left
      intro x _
      simp only [Function.comp_apply]
      by_cases hA : x.boardId = c.boardId ∧ pos ≤ x.position ∧
          x.position < c.position
      · rw [if_pos hA]
        dsimp only
        by_cases hid : x.id = id
        · rw [if_pos hid]
          unfold specSameParentColumnShift
          rw [if_pos hid]
        · rw [if_neg hid]
          unfold specSameParentColumnShift
          rw [if_neg hid,
            if_neg (show ¬(x.boardId = c.boardId ∧ c.position < pos ∧
              c.position < x.position ∧ x.position ≤ pos) from by
              rintro ⟨-, h, -⟩; omega),
            if_pos (show x.boardId = c.boardId ∧ pos < c.position ∧
              pos ≤ x.position ∧ x.position < c.position from
              ⟨hA.1, h2, hA.2.1, hA.2.2⟩)]
      · rw [if_neg hA]
        by_cases hid : x.id = id
        · rw [if_pos hid]
          unfold specSameParentColumnShift
          rw [if_pos hid]
        · rw [if_neg hid]
          unfold specSameParentColumnShift
          rw [if_neg hid,
            if_neg (show ¬(x.boardId = c.boardId ∧ c.position < pos ∧
              c.position < x.position ∧ x.position ≤ pos) from by
              rintro ⟨-, h, -⟩; omega),
            if_neg (show ¬(x.boardId = c.boardId ∧ pos < c.position ∧
              pos ≤ x.position ∧ x.position < c.position) from
              fun h => hA ⟨h.1, h.2.2.1, h.2.2.2⟩)]
    · rw [if_neg h2]
      apply List.map_congr_left
      intro x _
      have hpc : pos = c.position := by omega
      by_cases hid : x.id = id
      · rw [if_pos hid]
        unfold specSameParentColumnShift
        rw [if_pos hid]
      · rw [if_neg hid]
        unfold specSameParentColumnShift
        rw [if_neg hid,
          if_neg (show ¬(x.boardId = c.boardId ∧ c.position < pos ∧
            c.position < x.position ∧ x.position ≤ pos) from by
            rintro ⟨-, h, -⟩; omega),
          if_neg (show ¬(x.boardId = c.boardId ∧ pos < c.position ∧
            pos ≤ x.position ∧ x.position < c.position) from by
            rintro ⟨-, h, -⟩; omega)]

theorem moveTask_same_ok (db : Db) (id : Nat) (pos : Int) (t : Task)
    (col : Column) (hf : findTask db id = some t)
    (hcol : findColumn db t.columnId = some col)
    (hnd : (db.tasks.map (fun y => y.id)).Nodup) :
    TaskController.moveTask db id t.columnId pos =
      .ok { db with tasks :=
        db.tasks.map (specSameParentTaskShift id t.columnId t.position pos) } := by
  simp only [TaskController.moveTask, hf, hcol]
  rw [if_neg (show ¬(t.columnId ≠ t.columnId) from fun h => h rfl)]
  refine congrArg (fun l : List Task =>
    (Except.ok { db with tasks := l } : Except Err Db)) ?_
  by_cases h1 : pos > t.position
  · rw [if_pos h1, List.map_map]
    apply List.map_congr_left
    intro x hx
    simp only [Function.comp_apply]
    by_cases hA : x.columnId = t.columnId ∧ t.position < x.position ∧
        x.position ≤ pos
    · rw [if_pos hA]
      dsimp only
      by_cases hid : x.id = id
      · rw [if_pos hid]
        unfold specSameParentTaskShift
        rw [if_pos hid]
        have hxt : x = t := key_unique (fun y : Task => y.id) hnd hf x hx hid
        subst hxt
        rfl
      · rw [if_neg hid]
        unfold specSameParentTaskShift
        rw [if_neg hid,
          if_pos (show x.columnId = t.columnId ∧ t.position < pos ∧
            t.position < x.position ∧ x.position ≤ pos from
            ⟨hA.1, by omega, hA.2.1, hA.2.2⟩)]
    · rw [if_neg hA]
      by_cases hid : x.id = id
      · rw [if_pos hid]
        unfold specSameParentTaskShift
        rw [if_pos hid]
        have hxt : x = t := key_unique (fun y : Task => y.id) hnd hf x hx hid
        subst hxt
        rfl
      · rw [if_neg hid]
        unfold specSameParentTaskShift
        rw [if_neg hid,
          if_neg (show ¬(x.columnId = t.columnId ∧ t.position < pos ∧
            t.position < x.position ∧ x.position ≤ pos) from
            fun h => hA ⟨h.1, h.2.2.1, h.2.2.2⟩),
          if_neg (show ¬(x.columnId = t.columnId ∧ pos < t.position ∧
            pos ≤ x.position ∧ x.position < t.position) from by
            rintro ⟨-, h, -⟩; omega)]
  · rw [if_neg h1]
    by_cases h2 : pos < t.position
    · rw [if_pos h2, List.map_map]
      apply List.map_congr_left
      intro x hx
      simp only [Function.comp_apply]
      by_cases hA : x.columnId = t.columnId ∧ pos ≤ x.position ∧
          x.position < t.position
      · rw [if_pos hA]
        dsimp only
        by_cases hid : x.id = id
        · rw [if_pos hid]
          unfold specSameParentTaskShift
          rw [if_pos hid]
          have hxt : x = t := key_unique (fun y : Task => y.id) hnd hf x hx hid
          subst hxt
          rfl
        · rw [if_neg hid]
          unfold specSameParentTaskShift
          rw [if_neg hid,
            if_neg (show ¬(x.columnId = t.columnId ∧ t.position < pos ∧
              t.position < x.position ∧ x.position ≤ pos) from by
              rintro ⟨-, h, -⟩; omega),
            if_pos (show x.columnId = t.columnId ∧ pos < t.position ∧
              pos ≤ x.position ∧ x.position < t.position from
              ⟨hA.1, h2, hA.2.1, hA.2.2⟩)]
      · rw [if_neg hA]
        by_cases hid : x.id = id
        · rw [if_pos hid]
          unfold specSameParentTaskShift
          rw [if_pos hid]
          have hxt : x = t := key_unique (fun y : Task => y.id) hnd hf x hx hid
          subst hxt
          rfl
        · rw [if_neg hid]
          unfold specSameParentTaskShift
          rw [if_neg hid,
            if_neg (show ¬(x.columnId = t.columnId ∧ t.position < pos ∧
              t.position < x.position ∧ x.position ≤ pos) from by
              rintro ⟨-, h, -⟩; omega),
            if_neg (show ¬(x.columnId = t.columnId ∧ pos < t.position ∧
              pos ≤ x.position ∧ x.position < t.position) from
              fun h => hA ⟨h.1, h.2.2.1, h.2.2.2⟩)]
    · rw [if_neg h2]
      apply List.map_congr_left
      intro x hx
      by_cases hid : x.id = id
      · rw [if_pos hid]
        unfold specSameParentTaskShift
        rw [if_pos hid]
        have hxt : x = t := key_unique (fun y : Task => y.id) hnd hf x hx hid
        subst hxt
        rfl
      · rw [if_neg hid]
        unfold specSameParentTaskShift
        rw [if_neg hid,
          if_neg (show ¬(x.columnId = t.columnId ∧ t.position < pos ∧
            t.position < x.position ∧ x.position ≤ pos) from by
            rintro ⟨-, h, -⟩; omega),
          if_neg (show ¬(x.columnId = t.columnId ∧ pos < t.position ∧
            pos ≤ x.position ∧ x.position < t.position) from by
            rintro ⟨-, h, -⟩; omega)]

theorem moveTask_cross_ok (db : Db) (id : Nat) (cid : Nat) (pos : Int)
    (t : Task) (col : Column) (hf : findTask db id = some t)
    (hcol : findColumn db cid = some col) (hne : cid ≠ t.columnId) :
    TaskController.moveTask db id cid pos =
      .ok { db with tasks :=
        db.tasks.map (specCrossColumnMove id t.columnId cid t.position pos) } := by
  simp only [TaskController.moveTask, hf, hcol]
  rw [if_pos hne]
  refine congrArg (fun l : List Task =>
    (Except.ok { db with tasks := l } : Except Err Db)) ?_
  rw [List.map_map, List.map_map]
  apply List.map_congr_left
  intro x _
  simp only [Function.comp_apply]
  by_cases hsrc : x.columnId = t.columnId ∧ t.position < x.position
  · rw [if_pos hsrc]
    dsimp only
    rw [if_neg (show ¬(x.columnId = cid ∧ pos ≤ x.position - 1) from
      fun h => hne (h.1.symm.trans hsrc.1))]
    dsimp only
    by_cases hid : x.id = id
    · rw [if_pos hid]
      unfold specCrossColumnMove
      rw [if_pos hid]
    · rw [if_neg hid]
      unfold specCrossColumnMove
      rw [if_neg hid, if_pos hsrc]
  · rw [if_neg hsrc]
    by_cases htg : x.columnId = cid ∧ pos ≤ x.position
    · rw [if_pos htg]
      dsimp only
      by_cases hid : x.id = id
      · rw [if_pos hid]
        unfold specCrossColumnMove
        rw [if_pos hid]
      · rw [if_neg hid]
        unfold specCrossColumnMove
        rw [if_neg hid,
          if_neg (show ¬(x.columnId = t.columnId ∧ t.position < x.position) from
            fun h => hne ((h.1.symm.trans htg.1).symm)),
          if_pos htg]
    · rw [if_neg htg]
      by_cases hid : x.id = id
      · rw [if_pos hid]
        unfold specCrossColumnMove
        rw [if_pos hid]
      · rw [if_neg hid]
        unfold specCrossColumnMove
        rw [if_neg hid, if_neg hsrc, if_neg htg]

/-! Preservation of key uniqueness. -/

theorem nodup_key_map {α : Type} (key : α → Nat) (l : List α) (f : α → α)
    (hf : ∀ x, key (f x) = key x) (h : (l.map key).Nodup) :
    ((l.map f).map key).Nodup := by
  rw [List.map_map, show (key ∘ f) = key from funext hf]
  exact h

theorem nodup_key_eraseP_map {α : Type} (key : α → Nat) (l : List α)
    (p : α → Bool) (f : α → α) (hf : ∀ x, key (f x) = key x)
    (h : (l.map key).Nodup) : (((l.eraseP p).map f).map key).Nodup := by
  rw [List.map_map, show (key ∘ f) = key from funext hf]
  exact h.sublist (List.Sublist.map key (List.eraseP_sublist l))

theorem nodup_key_append {α : Type} (key : α → Nat) (l : List α) (a : α)
    (k : Nat) (hk : key a = k) (h : (l.map key).Nodup)
    (hfresh : l.find? (fun x => key x == k) = none) :
    ((l ++ [a]).map key).Nodup := by
  rw [List.map_append]
  rw [List.nodup_append]
  refine ⟨h, List.nodup_singleton _, ?_⟩
  intro v hv hv2
  rcases List.mem_map.mp hv with ⟨x, hx, rfl⟩
  have := List.find?_eq_none.mp hfresh x hx
  simp only [List.map_cons, List.map_nil, List.mem_singleton] at hv2
  exact this (by simp [hv2, hk])

/-! Preservation of the invariant by each call. -/

theorem preserve_createColumn (db : Db) (newId : Nat) (nm : String) (b : Nat)
    (hS : StructOk db) (hI : Inv db) :
    StructOk (applyOp db (Op.createColumn newId nm b)) ∧
    Inv (applyOp db (Op.createColumn newId nm b)) := by
  obtain ⟨hSc, hSt⟩ := hS
  have hall := inv_to_all hI
  by_cases hb : b ∈ db.boards
  · cases hnew : findColumn db newId with
    | some c =>
      have herr : ColumnController.createColumn db newId nm b none =
          .error ⟨"A record with this data already exists", 409⟩ := by
        unfold ColumnController.createColumn
        rw [if_neg (show ¬ b ∉ db.boards from fun h => h hb)]
        rw [if_pos (show ((findColumn db newId).isSome = true) from by
          rw [hnew]; rfl)]
      simp only [applyOp, herr]
      exact ⟨⟨hSc, hSt⟩, hI⟩
    | none =>
      have hok := createColumn_ok db newId nm b hb hnew
      simp only [applyOp, hok]
      constructor
      · exact ⟨nodup_key_append (fun c : Column => c.id) db.columns _ newId rfl
          hSc (by exact hnew), hSt⟩
      · apply all_to_inv
        constructor
        · intro u
          have hP : (maxColumnPosition db b).getD (-1) + 1 =
              (itemTotal (db.columns.map colItem) b : Int) := by
            unfold maxColumnPosition
            rw [insertPos_of_contiguous
              ((contiguous_cols_iff db b).mpr (hall.1 b))]
            rw [length_columnPositions]
          have hmap : ({ db with columns := db.columns ++
              [(⟨newId, b, nm, (maxColumnPosition db b).getD (-1) + 1⟩ : Column)] } : Db).columns.map colItem =
              db.columns.map colItem ++
                [(⟨newId, b, (itemTotal (db.columns.map colItem) b : Int)⟩ : Item)] := by
            show (db.columns ++ [(⟨newId, b, nm,
              (maxColumnPosition db b).getD (-1) + 1⟩ : Column)]).map colItem =
              db.columns.map colItem ++
                [(⟨newId, b, (itemTotal (db.columns.map colItem) b : Int)⟩ : Item)]
            rw [List.map_append, List.map_cons, List.map_nil,
              show colItem (⟨newId, b, nm,
                (maxColumnPosition db b).getD (-1) + 1⟩ : Column) =
                (⟨newId, b, (maxColumnPosition db b).getD (-1) + 1⟩ : Item) from
                rfl,
              hP]
          rw [hmap]
          exact insert_end_contig_all (db.columns.map colItem) b newId hall.1 u
        · intro cid
          exact hall.2 cid
  · have herr : ColumnController.createColumn db newId nm b none =
        .error ⟨"Board not found", 404⟩ := by
      unfold ColumnController.createColumn
      rw [if_pos hb]
    simp only [applyOp, herr]
    exact ⟨⟨hSc, hSt⟩, hI⟩

theorem preserve_createTask (db : Db) (newId : Nat) (ttl : String) (cid : Nat)
    (hS : StructOk db) (hI : Inv db) :
    StructOk (applyOp db (Op.createTask newId ttl cid)) ∧
    Inv (applyOp db (Op.createTask newId ttl cid)) := by
  obtain ⟨hSc, hSt⟩ := hS
  have hall := inv_to_all hI
  cases hcol : findColumn db cid with
  | none =>
    have herr : TaskController.createTask db newId ttl cid none =
        .error ⟨"Column not found", 404⟩ := by
      simp only [TaskController.createTask, hcol]
    simp only [applyOp, herr]
    exact ⟨⟨hSc, hSt⟩, hI⟩
  | some col =>
    cases hnew : findTask db newId with
    | some t =>
      have herr : TaskController.createTask db newId ttl cid none =
          .error ⟨"A record with this data already exists", 409⟩ := by
        simp only [TaskController.createTask, hcol]
        rw [if_pos (show ((findTask db newId).isSome = true) from by
          rw [hnew]; rfl)]
      simp only [applyOp, herr]
      exact ⟨⟨hSc, hSt⟩, hI⟩
    | none =>
      have hok := createTask_ok db newId ttl cid col hcol hnew
      simp only [applyOp, hok]
      constructor
      · exact ⟨hSc, nodup_key_append (fun t : Task => t.id) db.tasks _ newId rfl
          hSt (by exact hnew)⟩
      · apply all_to_inv
        constructor
        · intro u
          exact hall.1 u
        · intro u
          have hP : (match maxTaskPosition db cid with
              | some m => m + 1
              | none => 0) = (itemTotal (db.tasks.map taskItem) cid : Int) := by
            unfold maxTaskPosition
            rw [insertPosMatch_of_contiguous
              ((contiguous_tasks_iff db cid).mpr (hall.2 cid))]
            rw [length_taskPositions]
          have hmap : ({ db with tasks := db.tasks ++
              [(⟨newId, cid, ttl,
                match maxTaskPosition db cid with
                | some m => m + 1
                | none => 0⟩ : Task)] } : Db).tasks.map taskItem =
              db.tasks.map taskItem ++
                [(⟨newId, cid, (itemTotal (db.tasks.map taskItem) cid : Int)⟩ : Item)] := by
            show (db.tasks ++ [(⟨newId, cid, ttl,
              match maxTaskPosition db cid with
              | some m => m + 1
              | none => 0⟩ : Task)]).map taskItem =
              db.tasks.map taskItem ++
                [(⟨newId, cid, (itemTotal (db.tasks.map taskItem) cid : Int)⟩ : Item)]
            rw [List.map_append, List.map_cons, List.map_nil,
              show taskItem (⟨newId, cid, ttl,
                match maxTaskPosition db cid with
                | some m => m + 1
                | none => 0⟩ : Task) =
                (⟨newId, cid,
                  match maxTaskPosition db cid with
                  | some m => m + 1
                  | none => 0⟩ : Item) from rfl,
              hP]
          rw [hmap]
          exact insert_end_contig_all (db.tasks.map taskItem) cid newId hall.2 u

theorem preserve_deleteColumn (db : Db) (id : Nat)
    (hS : StructOk db) (hI : Inv db) :
    StructOk (applyOp db (Op.deleteColumn id)) ∧
    Inv (applyOp db (Op.deleteColumn id)) := by
  obtain ⟨hSc, hSt⟩ := hS
  have hall := inv_to_all hI
  cases hf : findColumn db id with
  | none =>
    have herr : ColumnController.deleteColumn db id =
        .error ⟨"Column not found", 404⟩ := by
      simp only [ColumnController.deleteColumn, hf]
    simp only [applyOp, herr]
    exact ⟨⟨hSc, hSt⟩, hI⟩
  | some c =>
    by_cases hlen : (columnTasks db id).length > 0
    · have herr : ColumnController.deleteColumn db id =
          .error ⟨"Cannot delete column with tasks. Please move or delete all tasks first.", 400⟩ := by
        simp only [ColumnController.deleteColumn, hf]
        rw [if_pos hlen]
      simp only [applyOp, herr]
      exact ⟨⟨hSc, hSt⟩, hI⟩
    · have hz : columnTasks db id = [] :=
        List.length_eq_zero.mp (by omega)
      have hok := deleteColumn_ok db id c hf hz
      simp only [applyOp, hok]
      constructor
      · exact ⟨nodup_key_eraseP_map (fun c : Column => c.id) db.columns _ _
          (fun x => by unfold specRemoveShiftColumn; split_ifs <;> rfl) hSc,
          hSt⟩
      · apply all_to_inv
        constructor
        · intro u
          have hmap : ({ db with columns := (db.columns.eraseP (fun x => x.id == id)).map (specRemoveShiftColumn c.boardId c.position) } : Db).columns.map colItem =
              ((db.columns.map colItem).eraseP (fun x => x.key == id)).map
                (removeItem c.boardId c.position) := by
            show ((db.columns.eraseP (fun x => x.id == id)).map
              (specRemoveShiftColumn c.boardId c.position)).map colItem = _
            rw [List.map_map,
              show (colItem ∘ specRemoveShiftColumn c.boardId c.position) =
                (removeItem c.boardId c.position ∘ colItem) from
                funext (colItem_specRemoveShift c.boardId c.position),
              ← List.map_map,
              map_eraseP colItem (fun x => x.id == id) (fun x => x.key == id)
                (fun x => rfl)]
          rw [hmap]
          exact remove_contig_all (db.columns.map colItem) (colItem c) id
            (find?_colItem db id c hf) (hall.1 _) u (hall.1 u)
        · intro u
          exact hall.2 u

theorem preserve_deleteTask (db : Db) (id : Nat)
    (hS : StructOk db) (hI : Inv db) :
    StructOk (applyOp db (Op.deleteTask id)) ∧
    Inv (applyOp db (Op.deleteTask id)) := by
  obtain ⟨hSc, hSt⟩ := hS
  have hall := inv_to_all hI
  cases hf : findTask db id with
  | none =>
    have herr : TaskController.deleteTask db id =
        .error ⟨"Task not found", 404⟩ := by
      simp only [TaskController.deleteTask, hf]
    simp only [applyOp, herr]
    exact ⟨⟨hSc, hSt⟩, hI⟩
  | some t =>
    have hok := deleteTask_ok db id t hf
    simp only [applyOp, hok]
    constructor
    · exact ⟨hSc, nodup_key_eraseP_map (fun t : Task => t.id) db.tasks _ _
        (fun x => by unfold specRemoveShiftTask; split_ifs <;> rfl) hSt⟩
    · apply all_to_inv
      constructor
      · intro u
        exact hall.1 u
      · intro u
        have hmap : ({ db with tasks := (db.tasks.eraseP (fun x => x.id == id)).map (specRemoveShiftTask t.columnId t.position) } : Db).tasks.map taskItem =
            ((db.tasks.map taskItem).eraseP (fun x => x.key == id)).map
              (removeItem t.columnId t.position) := by
          show ((db.tasks.eraseP (fun x => x.id == id)).map
            (specRemoveShiftTask t.columnId t.position)).map taskItem = _
          rw [List.map_map,
            show (taskItem ∘ specRemoveShiftTask t.columnId t.position) =
              (removeItem t.columnId t.position ∘ taskItem) from
              funext (taskItem_specRemoveShift t.columnId t.position),
            ← List.map_map,
            map_eraseP taskItem (fun x => x.id == id) (fun x => x.key == id)
              (fun x => rfl)]
        rw [hmap]
        exact remove_contig_all (db.tasks.map taskItem) (taskItem t) id
          (find?_taskItem db id t hf) (hall.2 _) u (hall.2 u)

theorem numColumns_eq_itemTotal (db : Db) (b : Nat) :
    numColumns db b = itemTotal (db.columns.map colItem) b := by
  have h := length_columnPositions db b
  unfold columnPositions at h
  rw [List.length_map] at h
  exact h

theorem numTasks_eq_itemTotal (db : Db) (cid : Nat) :
    numTasks db cid = itemTotal (db.tasks.map taskItem) cid := by
  have h := length_taskPositions db cid
  unfold taskPositions at h
  rw [List.length_map] at h
  exact h

theorem preserve_reorderColumn (db : Db) (id : Nat) (pos : Int)
    (hS : StructOk db) (hI : Inv db)
    (hv : opValid db (Op.reorderColumn id pos)) :
    StructOk (applyOp db (Op.reorderColumn id pos)) ∧
    Inv (applyOp db (Op.reorderColumn id pos)) := by
  obtain ⟨hSc, hSt⟩ := hS
  have hall := inv_to_all hI
  cases hf : findColumn db id with
  | none =>
    have herr : ColumnController.reorderColumn db id pos =
        .error ⟨"Column not found", 404⟩ := by
      simp only [ColumnController.reorderColumn, hf]
    simp only [applyOp, herr]
    exact ⟨⟨hSc, hSt⟩, hI⟩
  | some c =>
    simp only [opValid, hf] at hv
    have hok := reorderColumn_ok db id pos c hf
    simp only [applyOp, hok]
    constructor
    · exact ⟨nodup_key_map (fun c : Column => c.id) db.columns _
        (fun x => by unfold specSameParentColumnShift; split_ifs <;> rfl) hSc,
        hSt⟩
    · apply all_to_inv
      constructor
      · intro u
        have hmap : ({ db with columns := db.columns.map (specSameParentColumnShift id c.boardId c.position pos) } : Db).columns.map colItem =
            (db.columns.map colItem).map
              (moveItem id c.boardId c.position pos) := by
          show (db.columns.map
            (specSameParentColumnShift id c.boardId c.position pos)).map
              colItem = _
          rw [List.map_map,
            show (colItem ∘ specSameParentColumnShift id c.boardId c.position pos) =
              (moveItem id c.boardId c.position pos ∘ colItem) from
              funext (colItem_specSameParentShift id c.boardId c.position pos),
            ← List.map_map]
        rw [hmap]
        exact move_same_contig_all (db.columns.map colItem) (colItem c) id pos
          (find?_colItem db id c hf) (nodup_colItem db hSc) hall.1 hv.1
          (by rw [← numColumns_eq_itemTotal]; exact hv.2) u
      · intro u
        exact hall.2 u

theorem preserve_moveTask (db : Db) (id : Nat) (cid : Nat) (pos : Int)
    (hS : StructOk db) (hI : Inv db)
    (hv : opValid db (Op.moveTask id cid pos)) :
    StructOk (applyOp db (Op.moveTask id cid pos)) ∧
    Inv (applyOp db (Op.moveTask id cid pos)) := by
  obtain ⟨hSc, hSt⟩ := hS
  have hall := inv_to_all hI
  cases hft : findTask db id with
  | none =>
    have herr : TaskController.moveTask db id cid pos =
        .error ⟨"Task not found", 404⟩ := by
      simp only [TaskController.moveTask, hft]
    simp only [applyOp, herr]
    exact ⟨⟨hSc, hSt⟩, hI⟩
  | some t =>
    cases hcol : findColumn db cid with
    | none =>
      have herr : TaskController.moveTask db id cid pos =
          .error ⟨"Target column not found", 404⟩ := by
        simp only [TaskController.moveTask, hft, hcol]
      simp only [applyOp, herr]
      exact ⟨⟨hSc, hSt⟩, hI⟩
    | some col =>
      simp only [opValid, hft] at hv
      by_cases hsame : cid = t.columnId
      · subst hsame
        rw [if_pos rfl] at hv
        have hok := moveTask_same_ok db id pos t col hft hcol hSt
        simp only [applyOp, hok]
        constructor
        · exact ⟨hSc, nodup_key_map (fun t : Task => t.id) db.tasks _
            (fun x => by unfold specSameParentTaskShift; split_ifs <;> rfl)
            hSt⟩
        · apply all_to_inv
          constructor
          · intro u
            exact hall.1 u
          · intro u
            have hmap : ({ db with tasks := db.tasks.map (specSameParentTaskShift id t.columnId t.position pos) } : Db).tasks.map taskItem =
                (db.tasks.map taskItem).map
                  (moveItem id t.columnId t.position pos) := by
              show (db.tasks.map
                (specSameParentTaskShift id t.columnId t.position pos)).map
                  taskItem = _
              rw [List.map_map,
                show (taskItem ∘ specSameParentTaskShift id t.columnId t.position pos) =
                  (moveItem id t.columnId t.position pos ∘ taskItem) from
                  funext (taskItem_specSameParentShift id t.columnId t.position pos),
                ← List.map_map]
            rw [hmap]
            exact move_same_contig_all (db.tasks.map taskItem) (taskItem t) id
              pos (find?_taskItem db id t hft) (nodup_taskItem db hSt) hall.2
              hv.1 (by rw [← numTasks_eq_itemTotal]; exact hv.2) u
      · rw [if_neg hsame] at hv
        have hok := moveTask_cross_ok db id cid pos t col hft hcol hsame
        simp only [applyOp, hok]
        constructor
        · exact ⟨hSc, nodup_key_map (fun t : Task => t.id) db.tasks _
            (fun x => by unfold specCrossColumnMove; split_ifs <;> rfl) hSt⟩
        · apply all_to_inv
          constructor
          · intro u
            exact hall.1 u
          · intro u
            have hmap : ({ db with tasks := db.tasks.map (specCrossColumnMove id t.columnId cid t.position pos) } : Db).tasks.map taskItem =
                (db.tasks.map taskItem).map
                  (crossItem id t.columnId cid t.position pos) := by
              show (db.tasks.map
                (specCrossColumnMove id t.columnId cid t.position pos)).map
                  taskItem = _
              rw [List.map_map,
                show (taskItem ∘ specCrossColumnMove id t.columnId cid t.position pos) =
                  (crossItem id t.columnId cid t.position pos ∘ taskItem) from
                  funext (taskItem_specCrossColumnMove id t.columnId cid t.position pos),
                ← List.map_map]
            rw [hmap]
            exact cross_contig_all (db.tasks.map taskItem) (taskItem t) id cid
              pos (find?_taskItem db id t hft) (nodup_taskItem db hSt) hall.2
              hsame hv.1 (by rw [← numTasks_eq_itemTotal]; exact hv.2) u

theorem applyOp_preserves (db : Db) (op : Op) (hS : StructOk db) (hI : Inv db)
    (hv : opValid db op) :
    StructOk (applyOp db op) ∧ Inv (applyOp db op) := by
  cases op with
  | createColumn newId nm b => exact preserve_createColumn db newId nm b hS hI
  | reorderColumn id pos => exact preserve_reorderColumn db id pos hS hI hv
  | deleteColumn id => exact preserve_deleteColumn db id hS hI
  | createTask newId ttl cid => exact preserve_createTask db newId ttl cid hS hI
  | moveTask id cid pos => exact preserve_moveTask db id cid pos hS hI hv
  | deleteTask id => exact preserve_deleteTask db id hS hI

theorem applyOps_preserves (ops : List Op) : ∀ db : Db, StructOk db → Inv db →
    opsValid db ops → StructOk (applyOps db ops) ∧ Inv (applyOps db ops) := by
  induction ops with
  | nil => exact fun db hS hI _ => ⟨hS, hI⟩
  | cons op rest ih =>
    intro db hS hI hv
    obtain ⟨h1, h2⟩ := hv
    have hstep := applyOp_preserves db op hS hI h1
    have := ih (applyOp db op) hstep.1 hstep.2 h2
    simpa [applyOps, List.foldl_cons] using this

/-! ## The claims -/

/-- Counterexample to claim C1 as stated: the reorder endpoint validates only
`position >= 0` (routes/validation), so a single valid-by-the-API reorder to
an out-of-range position breaks contiguity.  `exDb3` has columns at 0,1,2;
reordering column 1 to position 5 leaves positions 5,0,1 under board 0.
Spec section 9 itself flags unclamped positions as an open question. -/
theorem claim_c1_counterexample :
    StructOk exDb3 ∧ Inv exDb3 ∧
    ¬ contiguous (columnPositions (applyOps exDb3 [Op.reorderColumn 1 5]) 0) := by
  decide

/-- **C1** (amended): starting from a store with unique primary keys whose
column positions are contiguous under every board and whose task positions
are contiguous under every column, after any sequence of column
create-without-position / reorder / delete and task create-without-position /
move / delete calls **whose move targets are in range** (`[0, count)` for a
same-parent move, `[0, targetCount]` for a cross-column move), the multiset
of column positions under every board is exactly `{0, ..., count-1}` and the
multiset of task positions under every column is exactly
`{0, ..., taskCount-1}`.  The amendment over the claim's text: move targets
must be in range (the API never clamps them — see the counterexample), and
column deletion is the dedicated `DELETE /api/columns/:id` path (the
board-scoped delete performs no shift — claim C2's counterexample). -/
theorem claim_c1_contiguity (db : Db) (ops : List Op)
    (hS : StructOk db) (hI : Inv db) (hv : opsValid db ops) :
    (∀ b, contiguous (columnPositions (applyOps db ops) b)) ∧
    (∀ cid, contiguous (taskPositions (applyOps db ops) cid)) := by
  have h := (applyOps_preserves ops db hS hI hv).2
  have hall := inv_to_all h
  exact ⟨fun b => (contiguous_cols_iff _ b).mpr (hall.1 b),
    fun cid => (contiguous_tasks_iff _ cid).mpr (hall.2 cid)⟩

/-- Witness: `exOps` runs a create, a reorder, a task create, a cross-column
move, a same-column move, a task delete and a column delete over `exDbT`, and
contiguity holds afterwards for board 0 and for task columns 1 and 2. -/
theorem claim_c1_contiguity_witness :
    StructOk exDbT ∧ Inv exDbT ∧ opsValid exDbT exOps ∧
    contiguous (columnPositions (applyOps exDbT exOps) 0) ∧
    contiguous (taskPositions (applyOps exDbT exOps) 1) ∧
    contiguous (taskPositions (applyOps exDbT exOps) 2) := by
  refine ⟨by decide, by decide, by decide, ?_, ?_, ?_⟩
  · exact (claim_c1_contiguity exDbT exOps (by decide) (by decide)
      (by decide)).1 0
  · exact (claim_c1_contiguity exDbT exOps (by decide) (by decide)
      (by decide)).2 1
  · exact (claim_c1_contiguity exDbT exOps (by decide) (by decide)
      (by decide)).2 2

/-- Counterexample to claim C2's "holds for EVERY operation that deletes a
Column": the board-scoped `DELETE /api/boards/:id/columns/:columnId`
(boardController.ts, `deleteColumn`) has no task check.  On `exDbT`, column 1
holds three tasks, yet the board-scoped delete succeeds, removing the column
and its tasks (and leaving the sibling at position 1, so positions are not
reshifted either). -/
theorem claim_c2_counterexample :
    0 < (columnTasks exDbT 1).length ∧
    BoardController.deleteColumn exDbT 0 1 =
      .ok ⟨[0], [⟨2, 0, "B", 1⟩], [⟨20, 2, "u0", 0⟩, ⟨21, 2, "u1", 1⟩]⟩ :=
  ⟨by decide, rfl⟩

/-- **C2** (amended to the dedicated `DELETE /api/columns/:id` path): deleting
a column that has at least one task through columnController's `deleteColumn`
throws the 400 "Cannot delete column with tasks" error; the transaction never
commits, so the store is unchanged. -/
theorem claim_c2_delete_refusal (db : Db) (id : Nat) (c : Column)
    (hf : findColumn db id = some c)
    (ht : 0 < (columnTasks db id).length) :
    ColumnController.deleteColumn db id =
      .error ⟨"Cannot delete column with tasks. Please move or delete all tasks first.", 400⟩ := by
  simp only [ColumnController.deleteColumn, hf]
  rw [if_pos ht]

/-- Witness: column 1 of `exDbT` holds three tasks and its delete is refused
with the 400 error. -/
theorem claim_c2_delete_refusal_witness :
    findColumn exDbT 1 = some ⟨1, 0, "A", 0⟩ ∧
    0 < (columnTasks exDbT 1).length ∧
    ColumnController.deleteColumn exDbT 1 =
      .error ⟨"Cannot delete column with tasks. Please move or delete all tasks first.", 400⟩ :=
  ⟨by decide, by decide,
   claim_c2_delete_refusal exDbT 1 ⟨1, 0, "A", 0⟩ (by decide) (by decide)⟩

/-- Every entry of `l.zip (l.map f)` relates an element to its image; used for
the frame claims about the update endpoints. -/
theorem zip_map_pointwise {α : Type} (l : List α) (f : α → α)
    (R : α → α → Prop) (h : ∀ x ∈ l, R x (f x)) :
    ∀ p ∈ l.zip (l.map f), R p.1 p.2 := by
  induction l with
  | nil => intro p hp; cases hp
  | cons y ys ih =>
    intro p hp
    rw [List.map_cons, List.zip_cons_cons] at hp
    cases hp with
    | head => exact h y (List.mem_cons_self y ys)
    | tail _ hp2 => exact ih (fun x hx => h x (List.mem_cons_of_mem y hx)) p hp2

/-- **C3**: a same-parent move rewrites the table exactly as the spec-side
shift description: the moved item ends at `toPosition`; moving right
decrements precisely the siblings in `(fromPosition, toPosition]`; moving
left increments precisely the siblings in `[toPosition, fromPosition)`;
everything else (including the other table) is untouched.  The task half
assumes unique task ids, which the primary key guarantees. -/
theorem claim_c3_same_parent_move :
    (∀ (db : Db) (id : Nat) (pos : Int) (c : Column) (db2 : Db),
      findColumn db id = some c →
      ColumnController.reorderColumn db id pos = .ok db2 →
      db2.columns = db.columns.map
        (specSameParentColumnShift id c.boardId c.position pos) ∧
      db2.tasks = db.tasks) ∧
    (∀ (db : Db) (id : Nat) (pos : Int) (t : Task) (db2 : Db),
      (db.tasks.map (fun y => y.id)).Nodup →
      findTask db id = some t →
      TaskController.moveTask db id t.columnId pos = .ok db2 →
      db2.tasks = db.tasks.map
        (specSameParentTaskShift id t.columnId t.position pos) ∧
      db2.columns = db.columns) := by
  constructor
  · intro db id pos c db2 hf hok
    rw [reorderColumn_ok db id pos c hf] at hok
    injection hok with h
    subst h
    exact ⟨rfl, rfl⟩
  · intro db id pos t db2 hnd hf hok
    cases hcol : findColumn db t.columnId with
    | none =>
      simp only [TaskController.moveTask, hf, hcol] at hok
      exact Except.noConfusion hok
    | some col =>
      rw [moveTask_same_ok db id pos t col hf hcol hnd] at hok
      injection hok with h
      subst h
      exact ⟨rfl, rfl⟩

/-- Witness: reordering column 2 of `exDb4` from position 1 to 3, and moving
task 11 of `exDbT` from position 1 to 0 inside column 1, both match the
spec-side shift maps. -/
theorem claim_c3_same_parent_move_witness :
    ({ exDb4 with columns := exDb4.columns.map (specSameParentColumnShift 2 0 1 3) } : Db).columns =
      exDb4.columns.map (specSameParentColumnShift 2 0 1 3) ∧
    ({ exDbT with tasks := exDbT.tasks.map (specSameParentTaskShift 11 1 1 0) } : Db).tasks =
      exDbT.tasks.map (specSameParentTaskShift 11 1 1 0) :=
  ⟨(claim_c3_same_parent_move.1 exDb4 2 3 ⟨2, 0, "B", 1⟩
      { exDb4 with columns := exDb4.columns.map (specSameParentColumnShift 2 0 1 3) }
      (by decide) rfl).1,
   (claim_c3_same_parent_move.2 exDbT 11 0 ⟨11, 1, "t1", 1⟩
      { exDbT with tasks := exDbT.tasks.map (specSameParentTaskShift 11 1 1 0) }
      (by decide) (by decide) rfl).1⟩

/-- **C4**: a cross-column task move (target column differs and exists)
rewrites the task table exactly as the spec-side description: source
siblings above the old position are decremented, target siblings at or above
`toPosition` are incremented, the moved task is re-parented to the target at
exactly `toPosition`, and nothing else changes.  The source does not require
the source column to still exist, so the theorem does not either (it is
strictly stronger than the claim's antecedent). -/
theorem claim_c4_cross_move (db : Db) (id cid : Nat) (pos : Int)
    (t : Task) (col : Column) (db2 : Db)
    (hf : findTask db id = some t) (hne : cid ≠ t.columnId)
    (hcol : findColumn db cid = some col)
    (hok : TaskController.moveTask db id cid pos = .ok db2) :
    db2.tasks = db.tasks.map
      (specCrossColumnMove id t.columnId cid t.position pos) ∧
    db2.columns = db.columns := by
  rw [moveTask_cross_ok db id cid pos t col hf hcol hne] at hok
  injection hok with h
  subst h
  exact ⟨rfl, rfl⟩

/-- Witness: the specification's own example — task 11 at position 1 of
column 1 moved to column 2 at position 1 (source positions 0,1,2; target
0,1). -/
theorem claim_c4_cross_move_witness :
    (2 : Nat) ≠ 1 ∧
    ({ exDbT with tasks := exDbT.tasks.map (specCrossColumnMove 11 1 2 1 1) } : Db).tasks =
      exDbT.tasks.map (specCrossColumnMove 11 1 2 1 1) :=
  ⟨by decide,
   (claim_c4_cross_move exDbT 11 2 1 ⟨11, 1, "t1", 1⟩ ⟨2, 0, "B", 1⟩
     { exDbT with tasks := exDbT.tasks.map (specCrossColumnMove 11 1 2 1 1) }
     (by decide) (by decide) (by decide) rfl).1⟩

/-- **C5**: deleting a task — or an empty column through the dedicated
column-delete endpoint — removes the row and decrements exactly the siblings
strictly above the removed position (the spec-side `specRemoveShift` maps),
and a parent whose positions were contiguous from 0 stays contiguous. -/
theorem claim_c5_remove_shift :
    (∀ (db : Db) (id : Nat) (t : Task) (db2 : Db),
      findTask db id = some t →
      TaskController.deleteTask db id = .ok db2 →
      db2.tasks = (db.tasks.eraseP (fun x => x.id == id)).map
        (specRemoveShiftTask t.columnId t.position) ∧
      (contiguous (taskPositions db t.columnId) →
        contiguous (taskPositions db2 t.columnId))) ∧
    (∀ (db : Db) (id : Nat) (c : Column) (db2 : Db),
      findColumn db id = some c →
      ColumnController.deleteColumn db id = .ok db2 →
      db2.columns = (db.columns.eraseP (fun x => x.id == id)).map
        (specRemoveShiftColumn c.boardId c.position) ∧
      (contiguous (columnPositions db c.boardId) →
        contiguous (columnPositions db2 c.boardId))) := by
  constructor
  · intro db id t db2 hf hok
    rw [deleteTask_ok db id t hf] at hok
    injection hok with h
    subst h
    refine ⟨rfl, fun hcont => ?_⟩
    rw [contiguous_tasks_iff]
    have hmap : ({ db with tasks := (db.tasks.eraseP (fun x => x.id == id)).map (specRemoveShiftTask t.columnId t.position) } : Db).tasks.map taskItem =
        ((db.tasks.map taskItem).eraseP (fun x => x.key == id)).map
          (removeItem t.columnId t.position) := by
      show ((db.tasks.eraseP (fun x => x.id == id)).map
        (specRemoveShiftTask t.columnId t.position)).map taskItem = _
      rw [List.map_map,
        show (taskItem ∘ specRemoveShiftTask t.columnId t.position) =
          (removeItem t.columnId t.position ∘ taskItem) from
          funext (taskItem_specRemoveShift t.columnId t.position),
        ← List.map_map,
        map_eraseP taskItem (fun x => x.id == id) (fun x => x.key == id)
          (fun x => rfl)]
    rw [hmap]
    exact remove_contig_all (db.tasks.map taskItem) (taskItem t) id
      (find?_taskItem db id t hf)
      ((contiguous_tasks_iff db t.columnId).mp hcont) t.columnId
      ((contiguous_tasks_iff db t.columnId).mp hcont)
  · intro db id c db2 hf hok
    by_cases hz0 : (columnTasks db id).length > 0
    · exfalso
      simp only [ColumnController.deleteColumn, hf] at hok
      rw [if_pos hz0] at hok
      exact Except.noConfusion hok
    · have hz : columnTasks db id = [] := List.length_eq_zero.mp (by omega)
      rw [deleteColumn_ok db id c hf hz] at hok
      injection hok with h
      subst h
      refine ⟨rfl, fun hcont => ?_⟩
      rw [contiguous_cols_iff]
      have hmap : ({ db with columns := (db.columns.eraseP (fun x => x.id == id)).map (specRemoveShiftColumn c.boardId c.position) } : Db).columns.map colItem =
          ((db.columns.map colItem).eraseP (fun x => x.key == id)).map
            (removeItem c.boardId c.position) := by
        show ((db.columns.eraseP (fun x => x.id == id)).map
          (specRemoveShiftColumn c.boardId c.position)).map colItem = _
        rw [List.map_map,
          show (colItem ∘ specRemoveShiftColumn c.boardId c.position) =
            (removeItem c.boardId c.position ∘ colItem) from
            funext (colItem_specRemoveShift c.boardId c.position),
          ← List.map_map,
          map_eraseP colItem (fun x => x.id == id) (fun x => x.key == id)
            (fun x => rfl)]
      rw [hmap]
      exact remove_contig_all (db.columns.map colItem) (colItem c) id
        (find?_colItem db id c hf)
        ((contiguous_cols_iff db c.boardId).mp hcont) c.boardId
        ((contiguous_cols_iff db c.boardId).mp hcont)

/-- Witness: the specification's example — deleting task 11 at position 1 of
column 1 (positions 0,1,2) leaves column 1 contiguous (positions 0,1). -/
theorem claim_c5_remove_shift_witness :
    contiguous (taskPositions exDbT 1) ∧
    contiguous (taskPositions { exDbT with tasks := (exDbT.tasks.eraseP (fun x => x.id == 11)).map (specRemoveShiftTask 1 1) } 1) :=
  ⟨by decide,
   (claim_c5_remove_shift.1 exDbT 11 ⟨11, 1, "t1", 1⟩
     { exDbT with tasks := (exDbT.tasks.eraseP (fun x => x.id == 11)).map (specRemoveShiftTask 1 1) }
     (by decide) rfl).2 (by decide)⟩

/-- **C6**: when no position is supplied, a created column or task lands at
`currentCount` — the number of existing siblings — for every parent whose
positions are contiguous from 0 (when none exist the count is 0). -/
theorem claim_c6_insert_at_end :
    (∀ (db : Db) (newId : Nat) (nm : String) (b : Nat) (db2 : Db)
      (col : Column),
      contiguous (columnPositions db b) →
      ColumnController.createColumn db newId nm b none = .ok (db2, col) →
      col.position = ((columnPositions db b).length : Int)) ∧
    (∀ (db : Db) (newId : Nat) (ttl : String) (cid : Nat) (db2 : Db)
      (tk : Task),
      contiguous (taskPositions db cid) →
      TaskController.createTask db newId ttl cid none = .ok (db2, tk) →
      tk.position = ((taskPositions db cid).length : Int)) := by
  constructor
  · intro db newId nm b db2 col hcont hok
    by_cases hb : b ∈ db.boards
    · by_cases hnew : findColumn db newId = none
      · rw [createColumn_ok db newId nm b hb hnew] at hok
        injection hok with h
        injection h with hdb hcol
        subst hcol
        show (maxColumnPosition db b).getD (-1) + 1 = _
        exact insertPos_of_contiguous hcont
      · exfalso
        unfold ColumnController.createColumn at hok
        rw [if_neg (show ¬ b ∉ db.boards from fun h => h hb),
          if_pos (show (findColumn db newId).isSome = true from by
            cases hfc : findColumn db newId with
            | none => exact absurd hfc hnew
            | some x => rfl)] at hok
        exact Except.noConfusion hok
    · exfalso
      unfold ColumnController.createColumn at hok
      rw [if_pos hb] at hok
      exact Except.noConfusion hok
  · intro db newId ttl cid db2 tk hcont hok
    cases hcol : findColumn db cid with
    | none =>
      simp only [TaskController.createTask, hcol] at hok
      exact Except.noConfusion hok
    | some x =>
      by_cases hnew : findTask db newId = none
      · rw [createTask_ok db newId ttl cid x hcol hnew] at hok
        injection hok with h
        injection h with hdb htk
        subst htk
        show (match maxTaskPosition db cid with
          | some m => m + 1
          | none => 0) = _
        exact insertPosMatch_of_contiguous hcont
      · exfalso
        simp only [TaskController.createTask, hcol] at hok
        rw [if_pos (show (findTask db newId).isSome = true from by
          cases hft : findTask db newId with
          | none => exact absurd hft hnew
          | some y => rfl)] at hok
        exact Except.noConfusion hok

/-- Witness: creating a column on `exDb3` (positions 0,1,2) without a
position lands it at position 3 = currentCount. -/
theorem claim_c6_insert_at_end_witness :
    contiguous (columnPositions exDb3 0) ∧
    (⟨4, 0, "X", (3 : Int)⟩ : Column).position =
      ((columnPositions exDb3 0).length : Int) :=
  ⟨by decide,
   claim_c6_insert_at_end.1 exDb3 4 "X" 0
     { exDb3 with columns := exDb3.columns ++ [⟨4, 0, "X", 3⟩] }
     ⟨4, 0, "X", 3⟩ (by decide) rfl⟩

/-- **C7**: moving an item to its own current position is the identity on
the store — the call succeeds and returns the store unchanged, so no sibling
(and not the item itself) moves.  Unique primary keys are assumed. -/
theorem claim_c7_move_idempotent :
    (∀ (db : Db) (id : Nat) (c : Column),
      (db.columns.map (fun y => y.id)).Nodup →
      findColumn db id = some c →
      ColumnController.reorderColumn db id c.position = .ok db) ∧
    (∀ (db : Db) (id : Nat) (t : Task) (col : Column),
      (db.tasks.map (fun y => y.id)).Nodup →
      findTask db id = some t →
      findColumn db t.columnId = some col →
      TaskController.moveTask db id t.columnId t.position = .ok db) := by
  constructor
  · intro db id c hnd hf
    rw [reorderColumn_ok db id c.position c hf]
    have hpt : ∀ x ∈ db.columns,
        specSameParentColumnShift id c.boardId c.position c.position x = x := by
      intro x hx
      unfold specSameParentColumnShift
      by_cases hid : x.id = id
      · rw [if_pos hid]
        have hxc : x = c := key_unique (fun y : Column => y.id) hnd hf x hx hid
        subst hxc
        rfl
      · rw [if_neg hid,
          if_neg (show ¬(x.boardId = c.boardId ∧ c.position < c.position ∧
            c.position < x.position ∧ x.position ≤ c.position) from
            fun h => lt_irrefl _ h.2.1),
          if_neg (show ¬(x.boardId = c.boardId ∧ c.position < c.position ∧
            c.position ≤ x.position ∧ x.position < c.position) from
            fun h => lt_irrefl _ h.2.1)]
    have hmap : db.columns.map
        (specSameParentColumnShift id c.boardId c.position c.position) =
        db.columns := by
      rw [List.map_congr_left hpt, List.map_id']
    rw [hmap]
  · intro db id t col hnd hf hcol
    rw [moveTask_same_ok db id t.position t col hf hcol hnd]
    have hpt : ∀ x ∈ db.tasks,
        specSameParentTaskShift id t.columnId t.position t.position x = x := by
      intro x hx
      unfold specSameParentTaskShift
      by_cases hid : x.id = id
      · rw [if_pos hid]
        have hxt : x = t := key_unique (fun y : Task => y.id) hnd hf x hx hid
        subst hxt
        rfl
      · rw [if_neg hid,
          if_neg (show ¬(x.columnId = t.columnId ∧ t.position < t.position ∧
            t.position < x.position ∧ x.position ≤ t.position) from
            fun h => lt_irrefl _ h.2.1),
          if_neg (show ¬(x.columnId = t.columnId ∧ t.position < t.position ∧
            t.position ≤ x.position ∧ x.position < t.position) from
            fun h => lt_irrefl _ h.2.1)]
    have hmap : db.tasks.map
        (specSameParentTaskShift id t.columnId t.position t.position) =
        db.tasks := by
      rw [List.map_congr_left hpt, List.map_id']
    rw [hmap]

/-- Witness: reordering column 2 of `exDb3` to its own position 1, and moving
task 11 of `exDbT` to its own position 1 of its own column 1, both return the
store unchanged. -/
theorem claim_c7_move_idempotent_witness :
    ColumnController.reorderColumn exDb3 2 1 = .ok exDb3 ∧
    TaskController.moveTask exDbT 11 1 1 = .ok exDbT :=
  ⟨claim_c7_move_idempotent.1 exDb3 2 ⟨2, 0, "In Progress", 1⟩
     (by decide) (by decide),
   claim_c7_move_idempotent.2 exDbT 11 ⟨11, 1, "t1", 1⟩ ⟨1, 0, "A", 0⟩
     (by decide) (by decide) (by decide)⟩

/-- **C8**: the generic update endpoints (PUT /api/columns/:id, the
board-scoped column update, PUT /api/tasks/:id) rewrite only the target row:
the table keeps its length and, position-for-position, every other row keeps
its position — no automatic re-shift of siblings happens on these paths. -/
theorem claim_c8_update_frame :
    (∀ (db : Db) (id : Nat) (nm : Option String) (pos : Option Int)
      (db2 : Db),
      ColumnController.updateColumn db id nm pos = .ok db2 →
      db2.tasks = db.tasks ∧ db2.columns.length = db.columns.length ∧
      ∀ p ∈ db.columns.zip db2.columns, p.1.id ≠ id →
        p.2.position = p.1.position) ∧
    (∀ (db : Db) (bId cId : Nat) (nm : Option String) (pos : Option Int)
      (db2 : Db),
      BoardController.updateColumn db bId cId nm pos = .ok db2 →
      db2.tasks = db.tasks ∧ db2.columns.length = db.columns.length ∧
      ∀ p ∈ db.columns.zip db2.columns, p.1.id ≠ cId →
        p.2.position = p.1.position) ∧
    (∀ (db : Db) (id : Nat) (u : TaskController.UpdateTaskData) (db2 : Db),
      TaskController.updateTask db id u = .ok db2 →
      db2.columns = db.columns ∧ db2.tasks.length = db.tasks.length ∧
      ∀ p ∈ db.tasks.zip db2.tasks, p.1.id ≠ id →
        p.2.position = p.1.position) := by
  refine ⟨?_, ?_, ?_⟩
  · intro db id nm pos db2 hok
    cases hf : findColumn db id with
    | none =>
      simp only [ColumnController.updateColumn, hf] at hok
      exact Except.noConfusion hok
    | some c =>
      simp only [ColumnController.updateColumn, hf] at hok
      injection hok with h
      subst h
      refine ⟨rfl, List.length_map .., ?_⟩
      apply zip_map_pointwise db.columns _
        (fun a b => a.id ≠ id → b.position = a.position)
      intro x _ hxid
      show (if x.id = id then _ else x).position = x.position
      rw [if_neg hxid]
  · intro db bId cId nm pos db2 hok
    cases hf : db.columns.find? (fun c => c.id == cId && c.boardId == bId) with
    | none =>
      simp only [BoardController.updateColumn, hf] at hok
      exact Except.noConfusion hok
    | some c =>
      simp only [BoardController.updateColumn, hf] at hok
      injection hok with h
      subst h
      refine ⟨rfl, List.length_map .., ?_⟩
      apply zip_map_pointwise db.columns _
        (fun a b => a.id ≠ cId → b.position = a.position)
      intro x _ hxid
      show (if x.id = cId then _ else x).position = x.position
      rw [if_neg hxid]
  · intro db id u db2 hok
    cases hf : findTask db id with
    | none =>
      simp only [TaskController.updateTask, hf] at hok
      exact Except.noConfusion hok
    | some t =>
      simp only [TaskController.updateTask, hf] at hok
      split_ifs at hok with hbt
      injection hok with h
      subst h
      refine ⟨rfl, List.length_map .., ?_⟩
      apply zip_map_pointwise db.tasks _
        (fun a b => a.id ≠ id → b.position = a.position)
      intro x _ hxid
      show (if x.id = id then _ else x).position = x.position
      rw [if_neg hxid]

/-- Witness: updating task 11 of `exDbT` to position 5 through the generic
update leaves task 12 (position 2) untouched — the frame fact at the
concrete pair of old and new row. -/
theorem claim_c8_update_frame_witness :
    ((⟨12, 1, "t2", (2 : Int)⟩ : Task),
      (⟨12, 1, "t2", (2 : Int)⟩ : Task)).2.position =
    ((⟨12, 1, "t2", (2 : Int)⟩ : Task),
      (⟨12, 1, "t2", (2 : Int)⟩ : Task)).1.position :=
  (claim_c8_update_frame.2.2 exDbT 11 ⟨none, none, some 5⟩
    { exDbT with tasks := [⟨10, 1, "t0", 0⟩, ⟨11, 1, "t1", 5⟩, ⟨12, 1, "t2", 2⟩, ⟨20, 2, "u0", 0⟩, ⟨21, 2, "u1", 1⟩] }
    rfl).2.2
    (⟨12, 1, "t2", 2⟩, ⟨12, 1, "t2", 2⟩) (by decide) (by decide)

/-! Helper facts about the hardcoded credentials, for claim C10. -/

theorem jsLower_hardcodedEmail :
    AuthController.hardcodedEmail.map AuthController.jsLower =
      AuthController.hardcodedEmail := by
  decide

theorem emailFormatValid_hardcodedEmail :
    AuthController.emailFormatValid AuthController.hardcodedEmail = true := by
  decide

/-- **C9**: magic-link verification is single-use.  An unexpired link whose
`usedAt` is set yields a 401 and leaves the store untouched; an expired link
yields a 401 and is deleted instead of accepted; and after any successful
verification the link's `usedAt` is written to the verification instant, so
any second verification of the same token fails with one of the two 401s
(which one depends on whether the second attempt is also past the expiry). -/
theorem claim_c9_magic_link_single_use :
    (∀ (db : AuthController.AuthDb) (token : String) (now : Int) (nid : Nat)
      (ml : AuthController.MagicLink),
      token ≠ "" →
      db.links.find? (fun l => l.token == token) = some ml →
      ¬ now > ml.expiresAt →
      ml.usedAt.isSome = true →
      AuthController.verifyMagicLink db token now nid =
        (.err 401 "Magic link has already been used", db)) ∧
    (∀ (db : AuthController.AuthDb) (token : String) (now : Int) (nid : Nat)
      (ml : AuthController.MagicLink),
      token ≠ "" →
      db.links.find? (fun l => l.token == token) = some ml →
      now > ml.expiresAt →
      AuthController.verifyMagicLink db token now nid =
        (.err 401 "Magic link has expired",
         { db with links := db.links.eraseP (fun l => l.id == ml.id) })) ∧
    (∀ (db : AuthController.AuthDb) (token : String) (now : Int) (nid : Nat)
      (uid : Nat) (db2 : AuthController.AuthDb),
      AuthController.verifyMagicLink db token now nid =
        (.authenticated uid, db2) →
      (∃ ml2, db2.links.find? (fun l => l.token == token) = some ml2 ∧
        ml2.usedAt = some now) ∧
      (∀ (now2 : Int) (nid2 : Nat),
        (AuthController.verifyMagicLink db2 token now2 nid2).1 =
          .err 401 "Magic link has expired" ∨
        (AuthController.verifyMagicLink db2 token now2 nid2).1 =
          .err 401 "Magic link has already been used")) := by
  refine ⟨?_, ?_, ?_⟩
  · intro db token now nid ml htok hfind hexp hused
    simp only [AuthController.verifyMagicLink, hfind]
    rw [if_neg htok, if_neg hexp, if_pos hused]
  · intro db token now nid ml htok hfind hexp
    simp only [AuthController.verifyMagicLink, hfind]
    rw [if_neg htok, if_pos hexp]
  · intro db token now nid uid db2 h
    by_cases htok : token = ""
    · unfold AuthController.verifyMagicLink at h
      rw [if_pos htok] at h
      exact AuthController.VerifyResult.noConfusion (congrArg Prod.fst h)
    · cases hfind : db.links.find? (fun l => l.token == token) with
      | none =>
        simp only [AuthController.verifyMagicLink, hfind] at h
        rw [if_neg htok] at h
        exact AuthController.VerifyResult.noConfusion (congrArg Prod.fst h)
      | some ml =>
        simp only [AuthController.verifyMagicLink, hfind] at h
        rw [if_neg htok] at h
        by_cases hexp : now > ml.expiresAt
        · rw [if_pos hexp] at h
          exact AuthController.VerifyResult.noConfusion (congrArg Prod.fst h)
        · rw [if_neg hexp] at h
          by_cases hused : ml.usedAt.isSome = true
          · rw [if_pos hused] at h
            exact AuthController.VerifyResult.noConfusion (congrArg Prod.fst h)
          · rw [if_neg hused] at h
            have hlinks : db2.links = db.links.map (fun l =>
                if l.id = ml.id then { l with usedAt := some now } else l) :=
              congrArg AuthController.AuthDb.links (congrArg Prod.snd h).symm
            have hp : ∀ l : AuthController.MagicLink,
                (((fun l => if l.id = ml.id then { l with usedAt := some now }
                  else l) l).token == token) = (l.token == token) := by
              intro l
              dsimp only
              split_ifs <;> rfl
            have hfind2 : db2.links.find? (fun l => l.token == token) =
                some { ml with usedAt := some now } := by
              rw [hlinks, find?_map_stable _ _ hp db.links, hfind]
              show some (if ml.id = ml.id then _ else ml) = _
              rw [if_pos rfl]
            refine ⟨⟨{ ml with usedAt := some now }, hfind2, rfl⟩, ?_⟩
            intro now2 nid2
            simp only [AuthController.verifyMagicLink, hfind2]
            rw [if_neg htok]
            by_cases hexp2 : now2 > ml.expiresAt
            · rw [if_pos (show now2 >
                ({ ml with usedAt := some now } :
                  AuthController.MagicLink).expiresAt from hexp2)]
              exact Or.inl rfl
            · rw [if_neg (show ¬ now2 >
                ({ ml with usedAt := some now } :
                  AuthController.MagicLink).expiresAt from hexp2),
                if_pos (show (({ ml with usedAt := some now } :
                  AuthController.MagicLink).usedAt).isSome = true from rfl)]
              exact Or.inr rfl

/-- Witness over `exAuthDb` at instant 100: the already-used link "used"
(used at 50) is refused with no state change; the expired link "old"
(expiry 10) is refused and deleted; and after "tok" verifies successfully,
a second verification of "tok" at instant 50 fails with one of the 401s. -/
theorem claim_c9_magic_link_single_use_witness :
    AuthController.verifyMagicLink exAuthDb "used" 100 7 =
      (.err 401 "Magic link has already been used", exAuthDb) ∧
    AuthController.verifyMagicLink exAuthDb "old" 100 7 =
      (.err 401 "Magic link has expired",
       { exAuthDb with links := exAuthDb.links.eraseP (fun l => l.id == 3) }) ∧
    ((AuthController.verifyMagicLink
        ⟨[⟨5, "user@example.com".toList⟩],
         [⟨1, "tok", "user@example.com".toList, some 5, 100, some 100⟩,
          ⟨2, "used", "user@example.com".toList, some 5, 100, some 50⟩,
          ⟨3, "old", "user@example.com".toList, some 5, 10, none⟩]⟩
        "tok" 50 9).1 = .err 401 "Magic link has expired" ∨
     (AuthController.verifyMagicLink
        ⟨[⟨5, "user@example.com".toList⟩],
         [⟨1, "tok", "user@example.com".toList, some 5, 100, some 100⟩,
          ⟨2, "used", "user@example.com".toList, some 5, 100, some 50⟩,
          ⟨3, "old", "user@example.com".toList, some 5, 10, none⟩]⟩
        "tok" 50 9).1 = .err 401 "Magic link has already been used") :=
  ⟨claim_c9_magic_link_single_use.1 exAuthDb "used" 100 7
     ⟨2, "used", "user@example.com".toList, some 5, 100, some 50⟩
     (by decide) (by decide) (by decide) (by decide),
   claim_c9_magic_link_single_use.2.1 exAuthDb "old" 100 7
     ⟨3, "old", "user@example.com".toList, some 5, 10, none⟩
     (by decide) (by decide) (by decide),
   (claim_c9_magic_link_single_use.2.2 exAuthDb "tok" 100 9 5
     ⟨[⟨5, "user@example.com".toList⟩],
      [⟨1, "tok", "user@example.com".toList, some 5, 100, some 100⟩,
       ⟨2, "used", "user@example.com".toList, some 5, 100, some 50⟩,
       ⟨3, "old", "user@example.com".toList, some 5, 10, none⟩]⟩
     rfl).2 50 9⟩

/-- Counterexample to claim C10 as stated: `email.toLowerCase()` performs
Unicode case conversion, not just ASCII.  The email
`admin@\u212Aanban.com` — U+212A KELVIN SIGN in place of `k` — is non-empty
and format-valid and is NOT equal to `admin@kanban.com` up to ASCII case
(the claim's `specAsciiLower` reading), yet KELVIN SIGN lowercases to `k`,
so the real controller logs it in where the claim's "if and only if" and
"every other credential pair is rejected with a 401" demand a rejection. -/
theorem claim_c10_counterexample :
    ("admin@\u212Aanban.com".toList) ≠ [] ∧
    AuthController.emailFormatValid ("admin@\u212Aanban.com".toList) = true ∧
    ("admin@\u212Aanban.com".toList).map specAsciiLower ≠
      AuthController.hardcodedEmail ∧
    AuthController.login ("admin@\u212Aanban.com".toList)
      AuthController.hardcodedPassword = .success := by
  decide

/-- **C10** (amended): for a non-empty, format-valid email and a non-empty
password, login succeeds exactly when the email lowercases to
`admin@kanban.com` under JS `toLowerCase` — Unicode case conversion, so
case-insensitively over the ASCII letters and also accepting U+212A KELVIN
SIGN for `k`, per the counterexample — and the password is exactly
`admin123`; any other such credential pair is a 401; and a missing email or
password, or a malformed email, is a 400 before credentials are compared. -/
theorem claim_c10_login (email password : List Char) :
    (email ≠ [] → password ≠ [] →
      AuthController.emailFormatValid email = true →
      (AuthController.login email password = .success ↔
        email.map AuthController.jsLower = AuthController.hardcodedEmail ∧
        password = AuthController.hardcodedPassword)) ∧
    (email ≠ [] → password ≠ [] →
      AuthController.emailFormatValid email = true →
      ¬(email.map AuthController.jsLower = AuthController.hardcodedEmail ∧
        password = AuthController.hardcodedPassword) →
      AuthController.login email password = .failure 401) ∧
    ((email = [] ∨ password = [] ∨
        AuthController.emailFormatValid email = false) →
      AuthController.login email password = .failure 400) := by
  refine ⟨fun hne0 hpne0 hfmt => ⟨?_, ?_⟩, ?_, ?_⟩
  · intro h
    unfold AuthController.login at h
    by_cases h1 : (email.isEmpty || password.isEmpty) = true
    · rw [if_pos h1] at h
      exact AuthController.LoginResult.noConfusion h
    · rw [if_neg h1] at h
      by_cases h2 : (!(AuthController.emailFormatValid email)) = true
      · rw [if_pos h2] at h
        exact AuthController.LoginResult.noConfusion h
      · rw [if_neg h2] at h
        by_cases h3 : email.map AuthController.jsLower ≠
            AuthController.hardcodedEmail.map AuthController.jsLower ∨
            password ≠ AuthController.hardcodedPassword
        · rw [if_pos h3] at h
          exact AuthController.LoginResult.noConfusion h
        · push_neg at h3
          obtain ⟨he, hp⟩ := h3
          refine ⟨?_, hp⟩
          rw [he]
          exact jsLower_hardcodedEmail
  · rintro ⟨he, hp⟩
    unfold AuthController.login
    have hne : email.isEmpty = false := by
      cases email with
      | nil => exact absurd he (by decide)
      | cons a as => rfl
    have hpne : password.isEmpty = false := by
      rw [hp]
      decide
    rw [if_neg (show ¬((email.isEmpty || password.isEmpty) = true) from by
        rw [hne, hpne]; decide),
      if_neg (show ¬((!(AuthController.emailFormatValid email)) = true) from by
        rw [hfmt]; decide),
      if_neg (show ¬(email.map AuthController.jsLower ≠
          AuthController.hardcodedEmail.map AuthController.jsLower ∨
          password ≠ AuthController.hardcodedPassword) from by
        push_neg
        exact ⟨by rw [he, jsLower_hardcodedEmail], hp⟩)]
  · intro hne hpne hfmt hnot
    unfold AuthController.login
    have h1 : (email.isEmpty || password.isEmpty) = false := by
      cases email with
      | nil => exact absurd rfl hne
      | cons a as =>
        cases password with
        | nil => exact absurd rfl hpne
        | cons b bs => rfl
    rw [if_neg (show ¬((email.isEmpty || password.isEmpty) = true) from by
        rw [h1]; decide),
      if_neg (show ¬((!(AuthController.emailFormatValid email)) = true) from by
        rw [hfmt]; decide),
      if_pos (show email.map AuthController.jsLower ≠
          AuthController.hardcodedEmail.map AuthController.jsLower ∨
          password ≠ AuthController.hardcodedPassword from ?_)]
    by_cases hpw : password = AuthController.hardcodedPassword
    · left
      intro hcontra
      rw [jsLower_hardcodedEmail] at hcontra
      exact hnot ⟨hcontra, hpw⟩
    · right
      exact hpw
  · intro h
    unfold AuthController.login
    rcases h with h | h | h
    · subst h
      rw [if_pos (show ((List.isEmpty ([] : List Char) ||
          password.isEmpty)) = true from rfl)]
    · subst h
      rw [if_pos (show ((email.isEmpty ||
          List.isEmpty ([] : List Char))) = true from by simp)]
    · cases h1 : (email.isEmpty || password.isEmpty) with
      | true => rfl
      | false =>
        rw [if_pos (show (!(AuthController.emailFormatValid email)) = true from by
          rw [h]; rfl)]
        rfl

/-- Witness: `Admin@Kanban.com` with `admin123` passes the iff (both sides
true), and so does the Kelvin-sign email of the counterexample;
`admin@kanban.com` with `wrong` is a 401; an empty email is a 400. -/
theorem claim_c10_login_witness :
    (AuthController.login ("Admin@Kanban.com".toList) ("admin123".toList) =
        .success ↔
      ("Admin@Kanban.com".toList).map AuthController.jsLower =
          AuthController.hardcodedEmail ∧
        "admin123".toList = AuthController.hardcodedPassword) ∧
    AuthController.login ("Admin@Kanban.com".toList) ("admin123".toList) =
      .success ∧
    AuthController.login ("admin@\u212Aanban.com".toList)
      ("admin123".toList) = .success ∧
    AuthController.login ("admin@kanban.com".toList) ("wrong".toList) =
      .failure 401 ∧
    AuthController.login ("".toList) ("admin123".toList) = .failure 400 :=
  have hiff := (claim_c10_login ("Admin@Kanban.com".toList)
    ("admin123".toList)).1 (by decide) (by decide) (by decide)
  have hiffK := (claim_c10_login ("admin@\u212Aanban.com".toList)
    ("admin123".toList)).1 (by decide) (by decide) (by decide)
  ⟨hiff,
   hiff.mpr ⟨by decide, rfl⟩,
   hiffK.mpr ⟨by decide, rfl⟩,
   (claim_c10_login ("admin@kanban.com".toList) ("wrong".toList)).2.1
     (by decide) (by decide) (by decide) (by decide),
   (claim_c10_login ("".toList) ("admin123".toList)).2.2
     (Or.inl (by decide))⟩

end KanbanSpec
